import Mathlib

/-!
Verification of the mayastor control-plane core controller:
the transactional operation engine (TOE) of
`control-plane/agents/src/bin/core/controller/resources/operations_helper.rs`,
the volume composite workflows of
`control-plane/agents/src/bin/core/volume/operations.rs`,
and node registration of `control-plane/agents/core/src/node/specs.rs`.

Rust async functions are embedded as pure state transformers over an
explicit context; the outcomes of persistent-store calls and of node-side
RPCs are passed in as explicit parameters.
-/

namespace Ctrl

instance exceptDecEq {ε α : Type} [DecidableEq ε] [DecidableEq α] :
    DecidableEq (Except ε α) := fun x y =>
  match x, y with
  | .ok a, .ok b =>
    if h : a = b then .isTrue (by rw [h]) else .isFalse (by simp [h])
  | .error a, .error b =>
    if h : a = b then .isTrue (by rw [h]) else .isFalse (by simp [h])
  | .ok _, .error _ => .isFalse (by simp)
  | .error _, .ok _ => .isFalse (by simp)

/-- Modelled from the spec: service-level error taxonomy (§7).  Only the
variants the embedded code paths can produce are included; payloads are
reduced to the identifiers the claims mention. -/
inductive SvcError where
  | InvalidUuid (uuid : Nat)
  | ReCreateMismatch (id : Nat)
  | AlreadyExists (id : Nat)
  | Deleting
  | StoreDirty (id : Nat)
  | InUse (id : Nat)
  | PendingCreation (id : Nat)
  | PendingDeletion (id : Nat)
  | Store
  | Conflict
  | NotEnoughResources
  | ReplicaCreateNumber (id : Nat)
  | FrontendNodeNotAllowed (node : String) (volId : Nat)
  | VolumeNotPublished (volId : Nat)
deriving DecidableEq, Repr

/-- Modelled from the spec: per-entity lifecycle status
`Creating, Created(kind-state), Deleting, Deleted` (§3 data model). -/
inductive SpecStatus where
  | Creating
  | Created (kindState : Nat)
  | Deleting
  | Deleted
deriving DecidableEq, Repr

/-- `SpecStatus::creating()`. -/
def SpecStatus.creating : SpecStatus → Bool
  | .Creating => true
  | _ => false

/-- `SpecStatus::created()`. -/
def SpecStatus.created : SpecStatus → Bool
  | .Created _ => true
  | _ => false

/-- `SpecStatus::deleted()`. -/
def SpecStatus.deleted : SpecStatus → Bool
  | .Deleted => true
  | _ => false

/-- `SpecStatus::deleting_or_deleted()`. -/
def SpecStatus.deleting_or_deleted : SpecStatus → Bool
  | .Deleting => true
  | .Deleted => true
  | _ => false

/-- Modelled from the spec: the transactional pending operation is a sum
type per resource kind `{Create(request), Update(op), Destroy}` (§9 design
notes).  Requests and update payloads are abstracted to `Nat`. -/
inductive PendingOp where
  | Create (request : Nat)
  | Destroy
  | Update (op : Nat)
deriving DecidableEq, Repr

/-- An in-flight operation together with its recorded outcome, mirroring
`OperationState { operation, result: Option<bool> }`
(`stor-port/src/types/v0/store/switchover.rs`, the same shape every
spec kind uses). -/
structure OperationState where
  op : PendingOp
  result : Option Bool
deriving DecidableEq, Repr

/-- Modelled from the spec: a generic resource spec as the TOE sees it —
identity, lifecycle status, the pending-operation cell, the owners list,
and kind-specific fields abstracted into `params` (set by the create
request) and `uparams` (set by committed updates).  Uuid `0` plays the
role of `Uuid::default()`. -/
structure Spec where
  uuid : Nat
  status : SpecStatus
  operation : Option OperationState
  owners : List Nat
  params : Nat
  uparams : Nat
deriving DecidableEq, Repr

/-- `SpecTransaction::has_pending_op`. -/
def Spec.has_pending_op (s : Spec) : Bool := s.operation.isSome

/-- `SpecTransaction::clear_op`. -/
def Spec.clear_op (s : Spec) : Spec := { s with operation := none }

/-- `SpecTransaction::start_op`: record a pending operation with no result
yet. -/
def Spec.start_op (s : Spec) (op : PendingOp) : Spec :=
  { s with operation := some ⟨op, none⟩ }

/-- `SpecTransaction::set_op_result`: record the outcome of the pending
operation, if there is one. -/
def Spec.set_op_result (s : Spec) (result : Bool) : Spec :=
  match s.operation with
  | some o => { s with operation := some ⟨o.op, some result⟩ }
  | none => s

/-- `SpecOperationsHelper::operation_result`: the pending operation's
result, if an operation is pending. -/
def Spec.operation_result (s : Spec) : Option (Option Bool) :=
  s.operation.map (·.result)

/-- Modelled from the spec: `SpecTransaction::commit_op` applies the
pending operation and clears it — a create commit sets the status to
`Created` and updates kind-specific fields (§4.4 create step 4), a destroy
commit sets `Deleted` (§4.4 destroy), an update commit applies the update
locally without touching the status (§4.4 update step 4). -/
def Spec.commit_op (s : Spec) : Spec :=
  match s.operation with
  | some ⟨.Create request, _⟩ =>
    { s with status := .Created 0, params := request, operation := none }
  | some ⟨.Destroy, _⟩ => { s with status := .Deleted, operation := none }
  | some ⟨.Update op, _⟩ => { s with uparams := op, operation := none }
  | none => s

/-- Modelled from the spec: `SpecOperationsHelper::dirty` — the spec is
busy while an operation is in progress or a failed persist is pending
(§7 Busy / StoreDirty). -/
def Spec.dirty (s : Spec) : Bool := s.has_pending_op

/-- `SpecOperationsHelper::busy`: reject with `StoreDirty` while dirty. -/
def Spec.busy (s : Spec) : Except SvcError Unit :=
  if s.dirty then .error (.StoreDirty s.uuid) else .ok ()

/-- Modelled from the spec: `PartialEq<Self::Create>` — a spec deep-equals
a create request when its create-derived fields match the request. -/
def Spec.eq_create (s : Spec) (request : Nat) : Bool := s.params = request

/-- Modelled from the spec: `SpecOperationsHelper::start_create_op`
records a `Create(request)` pending operation (§4.4 create step 1). -/
def Spec.start_create_op (s : Spec) (request : Nat) : Spec :=
  s.start_op (.Create request)

/-- `SpecOperationsHelper::start_destroy_op`. -/
def Spec.start_destroy_op (s : Spec) : Spec := s.start_op .Destroy

/-- `SpecOperationsHelper::set_status`. -/
def Spec.set_status (s : Spec) (status : SpecStatus) : Spec :=
  { s with status := status }

/-- `SpecOperationsHelper::disown`: remove the given disowners from the
owners list. -/
def Spec.disown (s : Spec) (disowners : List Nat) : Spec :=
  { s with owners := s.owners.filter (fun o => decide (o ∉ disowners)) }

/-- `SpecOperationsHelper::disown_all`. -/
def Spec.disown_all (s : Spec) : Spec := { s with owners := [] }

/-- `SpecOperationsHelper::owned`. -/
def Spec.owned (s : Spec) : Bool := !s.owners.isEmpty

/-- `SpecOperationsHelper::fail_creating_to_deleting`
(operations_helper.rs:762-769): set the status to `Deleting` and clear the
pending create operation. -/
def Spec.fail_creating_to_deleting (s : Spec) : Spec :=
  (s.set_status .Deleting).clear_op

/-- `SpecOperationsHelper::start_create_inner`
(operations_helper.rs:670-702): validate a (re-)issued create request.
Returns the updated spec (Rust mutates in place). -/
def Spec.start_create_inner (s : Spec) (request : Nat) : Except SvcError Spec :=
  match s.busy with
  | .error e => .error e
  | .ok _ =>
    if s.uuid = 0 then .error (.InvalidUuid s.uuid)
    else if s.status.creating then
      if s.eq_create request = false then .error (.ReCreateMismatch s.uuid)
      else .ok (s.start_create_op request)
    else if s.status.created then .error (.AlreadyExists s.uuid)
    else .error .Deleting

/-- The per-spec world a guarded operation acts on: the in-memory spec
(the locked cell inside the resource registry), whether the spec is still
present in the registry, and the persistent-store copy (`none` when no
key is stored).  Store calls may fail; their outcomes are passed in as
explicit booleans. -/
structure Ctx where
  spec : Spec
  inRegistry : Bool
  store : Option Spec
deriving DecidableEq, Repr

/-- `Registry::store_obj`: put the serialized spec under its key.  On
failure nothing is written (`put` is all-or-nothing). -/
def store_obj (putOk : Bool) (c : Ctx) (obj : Spec) : Ctx × Except SvcError Unit :=
  if putOk then ({ c with store := some obj }, .ok ()) else (c, .error .Store)

/-- `Registry::delete_kv`: delete the spec's key from the store. -/
def delete_kv (delOk : Bool) (c : Ctx) : Ctx × Except SvcError Unit :=
  if delOk then ({ c with store := none }, .ok ()) else (c, .error .Store)

/-- `GuardedOperationsHelper::remove_spec`: drop the spec from the
registry maps. -/
def remove_spec (c : Ctx) : Ctx := { c with inRegistry := false }

/-- `GuardedOperationsHelper::store_operation_log`
(operations_helper.rs:622-638): put the spec carrying the logged
operation; on failure clear the pending operation on the live spec and
return the error. -/
def store_operation_log (putOk : Bool) (c : Ctx) (spec_clone : Spec) :
    Ctx × Except SvcError Unit :=
  match store_obj putOk c spec_clone with
  | (c1, .ok _) => (c1, .ok ())
  | (c1, .error e) => ({ c1 with spec := c1.spec.clear_op }, .error e)

/-- `GuardedOperationsHelper::delete_spec`
(operations_helper.rs:269-296): delete the spec from the store and, on
success, from the registry; on failure mark the operation result as
failed so the reconciler can tidy up. -/
def delete_spec (delOk : Bool) (c : Ctx) : Ctx × Except SvcError Unit :=
  match delete_kv delOk c with
  | (c1, .ok _) => (remove_spec c1, .ok ())
  | (c1, .error e) => ({ c1 with spec := c1.spec.set_op_result false }, .error e)

/-- `GuardedOperationsHelper::complete_op`: commit the pending operation
on the live in-memory spec. -/
def complete_op (c : Ctx) : Ctx := { c with spec := c.spec.commit_op }

/-- `GuardedOperationsHelper::start_create`
(operations_helper.rs:116-146): validate the request under the lock, then
log the intent to the store; if the put fails, `delete_spec` is attempted
and the store error is returned. -/
def start_create (putOk delOk : Bool) (request : Nat) (c : Ctx) :
    Ctx × Except SvcError Spec :=
  match c.spec.start_create_inner request with
  | .error (.InvalidUuid u) => (remove_spec c, .error (.InvalidUuid u))
  | .error e => (c, .error e)
  | .ok spec1 =>
    let c1 : Ctx := { c with spec := spec1 }
    match store_operation_log putOk c1 spec1 with
    | (c2, .ok _) => (c2, .ok spec1)
    | (c2, .error e) => ((delete_spec delOk c2).1, .error e)

/-- What to do when creation fails (`OnCreateFail`,
operations_helper.rs:54-62). -/
inductive OnCreateFail where
  | LeaveAsIs
  | SetDeleting
  | Delete
deriving DecidableEq, Repr

/-- `GuardedOperationsHelper::handle_create_failed`
(operations_helper.rs:221-264): dispatch a failed creation per the
`OnCreateFail` policy; the original error is returned in every case. -/
def handle_create_failed (onFail : OnCreateFail) (putOk delOk : Bool) (c : Ctx)
    (error : SvcError) : Ctx × SvcError :=
  match onFail with
  | .LeaveAsIs =>
    match store_obj putOk c c.spec.clear_op with
    | (c1, .ok _) => ({ c1 with spec := c1.spec.clear_op }, error)
    | (c1, .error _) => ({ c1 with spec := c1.spec.set_op_result false }, error)
  | .SetDeleting =>
    let c1 : Ctx := { c with spec := c.spec.fail_creating_to_deleting }
    ((store_obj putOk c1 c1.spec).1, error)
  | .Delete => ((delete_spec delOk c).1, error)

/-- `GuardedOperationsHelper::complete_create`
(operations_helper.rs:154-184): on node-side success put the committed
clone; commit in memory only if the put succeeds, else mark the spec
dirty with `op_result = Some(true)`.  On node-side failure dispatch per
the policy. -/
def complete_create (result : Except SvcError Unit) (putOk delOk : Bool)
    (onFail : OnCreateFail) (c : Ctx) : Ctx × Except SvcError Unit :=
  match result with
  | .ok val =>
    match store_obj putOk c c.spec.commit_op with
    | (c1, .ok _) => (complete_op c1, .ok val)
    | (c1, .error e) => ({ c1 with spec := c1.spec.set_op_result true }, .error e)
  | .error e =>
    match handle_create_failed onFail putOk delOk c e with
    | (c1, e1) => (c1, .error e1)

/-- `GuardedOperationsHelper::validate_create_step_ext`
(operations_helper.rs:204-218). -/
def validate_create_step_ext (result : Except SvcError Unit) (putOk delOk : Bool)
    (onFail : OnCreateFail) (c : Ctx) : Ctx × Except SvcError Unit :=
  match result with
  | .ok val => (c, .ok val)
  | .error e =>
    match handle_create_failed onFail putOk delOk c e with
    | (c1, e1) => (c1, .error e1)

/-- `GuardedOperationsHelper::start_destroy_by`
(operations_helper.rs:316-363): busy check first, early `Ok` when already
`Deleted`, disown the requesting owners and refuse with `InUse` when
owners remain, otherwise set `Deleting`, disown completely, record the
`Destroy` operation and log the intent. -/
def start_destroy_by (putOk : Bool) (disowners : List Nat) (c : Ctx) :
    Ctx × Except SvcError Unit :=
  match c.spec.busy with
  | .error e => (c, .error e)
  | .ok _ =>
    if c.spec.status.deleted then (c, .ok ())
    else
      let s1 := c.spec.disown disowners
      if s1.owned then ({ c with spec := s1 }, .error (.InUse s1.uuid))
      else
        let s2 := ((s1.set_status .Deleting).disown_all).start_destroy_op
        let c1 : Ctx := { c with spec := s2 }
        match store_operation_log putOk c1 s2 with
        | (c2, .ok _) => (c2, .ok ())
        | (c2, .error e) => (c2, .error e)

/-- `GuardedOperationsHelper::complete_destroy`
(operations_helper.rs:368-415): on node-side success delete the key; only
if the delete succeeds remove the spec from the registry and commit in
memory, else mark `op_result = Some(true)`.  On node-side failure put the
cleared clone; clear in memory only if the put succeeds, else mark
`op_result = Some(false)`. -/
def complete_destroy (result : Except SvcError Unit) (delOk putOk : Bool) (c : Ctx) :
    Ctx × Except SvcError Unit :=
  match result with
  | .ok val =>
    match delete_kv delOk c with
    | (c1, .ok _) => (complete_op (remove_spec c1), .ok val)
    | (c1, .error e) => ({ c1 with spec := c1.spec.set_op_result true }, .error e)
  | .error e =>
    match store_obj putOk c c.spec.clear_op with
    | (c1, .ok _) => ({ c1 with spec := c1.spec.clear_op }, .error e)
    | (c1, .error e2) => ({ c1 with spec := c1.spec.set_op_result false }, .error e2)

/-- Modelled from the spec: the kind-specific data of an update operation
— the payload, whether the operation is admissible while `Creating` /
`Deleting` (`allow_op_creating` / `allow_op_deleting`), whether the
intent is logged (`log_op`) and whether the commit is stored
(`flush_pending_op`) (§4.4 update protocol). -/
structure UpdateOp where
  op : Nat
  allowCreating : Bool
  allowDeleting : Bool
  logOp : Bool
  storeObj : Bool
deriving DecidableEq, Repr

/-- `SpecOperationsHelper::start_update_inner`
(operations_helper.rs:705-734): busy check, then admission by status, then
record the update operation.  Returns the updated spec. -/
def Spec.start_update_inner (s : Spec) (u : UpdateOp) : Except SvcError Spec :=
  match s.busy with
  | .error e => .error e
  | .ok _ =>
    match s.status with
    | .Creating =>
      if u.allowCreating then .ok (s.start_op (.Update u.op))
      else .error (.PendingCreation s.uuid)
    | .Deleted =>
      if u.allowDeleting then .ok (s.start_op (.Update u.op))
      else .error (.PendingDeletion s.uuid)
    | .Deleting =>
      if u.allowDeleting then .ok (s.start_op (.Update u.op))
      else .error (.PendingDeletion s.uuid)
    | .Created _ => .ok (s.start_op (.Update u.op))

/-- `GuardedOperationsHelper::start_update`
(operations_helper.rs:419-443): run the inner admission on a clone, write
it back, and log the intent when the operation kind requires it. -/
def start_update (putOk : Bool) (u : UpdateOp) (c : Ctx) : Ctx × Except SvcError Spec :=
  match c.spec.start_update_inner u with
  | .error e => (c, .error e)
  | .ok spec1 =>
    let c1 : Ctx := { c with spec := spec1 }
    if u.logOp then
      match store_operation_log putOk c1 spec1 with
      | (c2, .ok _) => (c2, .ok spec1)
      | (c2, .error e) => (c2, .error e)
    else (c1, .ok spec1)

/-- `GuardedOperationsHelper::complete_update`
(operations_helper.rs:448-500): when the operation is not flagged for
storing, commit or clear directly in memory; otherwise put the committed
(resp. cleared) clone and apply the same change in memory only if the put
succeeds, marking the spec dirty otherwise. -/
def complete_update (result : Except SvcError Unit) (putOk : Bool) (storeObjFlag : Bool)
    (c : Ctx) : Ctx × Except SvcError Unit :=
  match result with
  | .ok val =>
    if storeObjFlag = false then (complete_op c, .ok val)
    else
      match store_obj putOk c c.spec.commit_op with
      | (c1, .ok _) => (complete_op c1, .ok val)
      | (c1, .error e) => ({ c1 with spec := c1.spec.set_op_result true }, .error e)
  | .error e =>
    if storeObjFlag = false then ({ c with spec := c.spec.clear_op }, .error e)
    else
      match store_obj putOk c c.spec.clear_op with
      | (c1, .ok _) => ({ c1 with spec := c1.spec.clear_op }, .error e)
      | (c1, .error e2) => ({ c1 with spec := c1.spec.set_op_result false }, .error e2)

/-- `GuardedOperationsHelper::validate_update_step`
(operations_helper.rs:506-535): on an error of an intermediate step, put
the cleared clone and clear in memory only if the put succeeds, marking
dirty otherwise. -/
def validate_update_step (result : Except SvcError Unit) (putOk : Bool) (c : Ctx) :
    Ctx × Except SvcError Unit :=
  match result with
  | .ok val => (c, .ok val)
  | .error e =>
    match store_obj putOk c c.spec.clear_op with
    | (c1, .ok _) => ({ c1 with spec := c1.spec.clear_op }, .error e)
    | (c1, .error e2) => ({ c1 with spec := c1.spec.set_op_result false }, .error e2)

/-- `GuardedOperationsHelper::handle_incomplete_updates`
(operations_helper.rs:583-618): dispatch on `operation_result()` —
re-commit on `Some(Some(true))`, re-clear on `Some(Some(false))`,
pessimistically clear on `Some(None)`; the in-memory change happens only
if the store write succeeds. -/
def handle_incomplete_updates (putOk : Bool) (c : Ctx) : Ctx × Bool :=
  match c.spec.operation_result with
  | some (some true) =>
    match store_obj putOk c c.spec.commit_op with
    | (c1, .ok _) => (complete_op c1, true)
    | (c1, .error _) => (c1, false)
  | some (some false) =>
    match store_obj putOk c c.spec.clear_op with
    | (c1, .ok _) => ({ c1 with spec := c1.spec.clear_op }, true)
    | (c1, .error _) => (c1, false)
  | some none =>
    match store_obj putOk c c.spec.clear_op with
    | (c1, .ok _) => ({ c1 with spec := c1.spec.clear_op }, true)
    | (c1, .error _) => (c1, false)
  | none => (c, true)

/-- `GuardedOperationsHelper::handle_incomplete_ops_ext`
(operations_helper.rs:550-580): a `Creating` spec handled with
`SetDeleting` is moved to `Deleting` for garbage collection; a `Deleted`
spec is deleted from store and registry; otherwise incomplete updates are
handled. -/
def handle_incomplete_ops_ext (onFail : OnCreateFail) (putOk delOk : Bool) (c : Ctx) :
    Ctx × Bool :=
  match c.spec.status with
  | .Creating =>
    match onFail with
    | .SetDeleting => ({ c with spec := c.spec.set_status .Deleting }, true)
    | _ => handle_incomplete_updates putOk c
  | .Deleted => ((delete_spec delOk c).1, true)
  | .Created _ => handle_incomplete_updates putOk c
  | .Deleting => handle_incomplete_updates putOk c

/-! ## TOE operation sequences

A guarded composite operation, as the composite workflows drive the TOE:
a create runs `start_create` and, if it succeeded, `complete_create`; a
destroy runs `start_destroy_by` and, if it succeeded, `complete_destroy`;
an update runs `start_update` and, if it succeeded, `complete_update`;
intermediate failure handling runs `validate_update_step`; recovery runs
`handle_incomplete_ops_ext`.  Store and node-RPC outcomes are carried by
the step. -/
inductive TOEStep where
  | createOp (request : Nat) (putOk : Bool) (nodeResult : Except SvcError Unit)
      (putOk2 delOk : Bool) (onFail : OnCreateFail)
  | destroyOp (disowners : List Nat) (putOk : Bool) (nodeResult : Except SvcError Unit)
      (delOk putOk2 : Bool)
  | updateOp (u : UpdateOp) (putOk : Bool) (nodeResult : Except SvcError Unit)
      (putOk2 : Bool)
  | validateStep (result : Except SvcError Unit) (putOk : Bool)
  | recoveryOp (onFail : OnCreateFail) (putOk delOk : Bool)
deriving Repr

/-- Run one guarded composite TOE operation, returning the final context
together with the in-memory statuses observed after each phase of the
operation (after the start phase and after the completion phase). -/
def runStepTrace (step : TOEStep) (c : Ctx) : Ctx × List SpecStatus :=
  match step with
  | .createOp request putOk nodeResult putOk2 delOk onFail =>
    match start_create putOk delOk request c with
    | (c1, .error _) => (c1, [c1.spec.status])
    | (c1, .ok _) =>
      ((complete_create nodeResult putOk2 delOk onFail c1).1,
       [c1.spec.status, (complete_create nodeResult putOk2 delOk onFail c1).1.spec.status])
  | .destroyOp disowners putOk nodeResult delOk putOk2 =>
    match start_destroy_by putOk disowners c with
    | (c1, .error _) => (c1, [c1.spec.status])
    | (c1, .ok _) =>
      ((complete_destroy nodeResult delOk putOk2 c1).1,
       [c1.spec.status, (complete_destroy nodeResult delOk putOk2 c1).1.spec.status])
  | .updateOp u putOk nodeResult putOk2 =>
    match start_update putOk u c with
    | (c1, .error _) => (c1, [c1.spec.status])
    | (c1, .ok _) =>
      ((complete_update nodeResult putOk2 u.storeObj c1).1,
       [c1.spec.status, (complete_update nodeResult putOk2 u.storeObj c1).1.spec.status])
  | .validateStep result putOk =>
    ((validate_update_step result putOk c).1,
     [(validate_update_step result putOk c).1.spec.status])
  | .recoveryOp onFail putOk delOk =>
    ((handle_incomplete_ops_ext onFail putOk delOk c).1,
     [(handle_incomplete_ops_ext onFail putOk delOk c).1.spec.status])

/-- The statuses observed after each phase of a sequence of TOE
operations. -/
def statusTraceAux : Ctx → List TOEStep → List SpecStatus
  | _, [] => []
  | c, step :: rest =>
    (runStepTrace step c).2 ++ statusTraceAux (runStepTrace step c).1 rest

/-- The sequence of in-memory statuses a spec passes through under a
sequence of TOE operations, starting from its current status. -/
def statusTrace (c : Ctx) (steps : List TOEStep) : List SpecStatus :=
  c.spec.status :: statusTraceAux c steps

/-- The status DAG of the spec (§8 property 3):
Creating → Created → Deleting → Deleted, plus the rollback edge
Creating → Deleting. -/
def dagEdge : SpecStatus → SpecStatus → Bool
  | .Creating, .Created _ => true
  | .Created _, .Deleting => true
  | .Deleting, .Deleted => true
  | .Creating, .Deleting => true
  | _, _ => false

/-- The status edges actually reachable in the code: the DAG plus the
edge Deleting → Created taken when incomplete-op recovery re-commits a
stale create operation of a spec already moved to `Deleting`. -/
def toeEdge : SpecStatus → SpecStatus → Bool
  | .Deleting, .Created _ => true
  | s, s' => dagEdge s s'

/-- Every status change along a trace lies in the given edge set. -/
def chainOk (edge : SpecStatus → SpecStatus → Bool) : List SpecStatus → Bool
  | [] => true
  | [_] => true
  | s :: s' :: rest => (s = s' || edge s s') && chainOk edge (s' :: rest)

/-- Reachability invariant tying the pending operation to the status: a
pending destroy exists only at `Deleting`, a pending create only at
`Creating` or (left behind by recovery's `SetDeleting` handling) at
`Deleting`. -/
def specInv (s : Spec) : Bool :=
  match s.operation with
  | some ⟨.Destroy, _⟩ => s.status = .Deleting
  | some ⟨.Create _, _⟩ => s.status = .Creating || s.status = .Deleting
  | _ => true

/-- A status step is admissible: unchanged, or along a reachable edge. -/
def edgeOk (a b : SpecStatus) : Prop := a = b ∨ toeEdge a b = true

/-- The statuses recorded by one TOE step form an admissible chain from
the status before the step. -/
def phasedOk (before : SpecStatus) (p : Ctx × List SpecStatus) : Prop :=
  (p.2 = [p.1.spec.status] ∧ edgeOk before p.1.spec.status) ∨
  (∃ m, p.2 = [m, p.1.spec.status] ∧ edgeOk before m ∧ edgeOk m p.1.spec.status)

/-! ## Volume create (volume/operations.rs:46-135) -/

/-- Share protocol of a replica (reduced to the two cases the claims
distinguish). -/
inductive Protocol where
  | none
  | nvmf
deriving DecidableEq, Repr

/-- A replica-create candidate produced by the placement policy
(`CreateReplica`). -/
structure CreateReplica where
  uuid : Nat
  node : Nat
  share : Protocol
deriving DecidableEq, Repr

/-- A created replica as reported back by the data plane. -/
structure Replica where
  uuid : Nat
  node : Nat
  share : Protocol
deriving DecidableEq, Repr

/-- Modelled from the spec: a successful replica create returns a replica
whose identity, node and share mirror the request (§6 node API replica
create). -/
def mkReplica (request : CreateReplica) : Replica :=
  ⟨request.uuid, request.node, request.share⟩

/-- The replica-creation loop of volume create
(volume/operations.rs:72-101): walk the candidates, stop once the
requested replication factor is reached, skip candidates whose node is
already used, demote the request to `Protocol::None` while no replica has
been created yet, and keep going past failed creates.  `ok i` is the
outcome of the i-th replica-create RPC. -/
def create_replicas_go (want : Nat) (ok : Nat → Bool) :
    List CreateReplica → List Replica → Nat → List Replica
  | [], replicas, _ => replicas
  | candidate :: rest, replicas, i =>
    if want ≤ replicas.length then replicas
    else if replicas.any (fun r => r.node = candidate.node) then
      create_replicas_go want ok rest replicas i
    else
      let request :=
        if replicas.isEmpty then { candidate with share := Protocol.none }
        else candidate
      if ok i then
        create_replicas_go want ok rest (replicas ++ [mkReplica request]) (i + 1)
      else create_replicas_go want ok rest replicas (i + 1)

/-- The replicas created by the loop of volume create. -/
def volume_create_replicas (want : Nat) (candidates : List CreateReplica)
    (ok : Nat → Bool) : List Replica :=
  create_replicas_go want ok candidates [] 0

/-- A `DestroyReplica` request (only the fields the claims mention). -/
structure DestroyReplica where
  uuid : Nat
  node : Nat
  disownAll : Bool
deriving DecidableEq, Repr

/-- `DestroyReplica::from(replica).with_disown_all()`
(volume/operations.rs:109-110). -/
def destroy_request_disown_all (r : Replica) : DestroyReplica :=
  ⟨r.uuid, r.node, true⟩

/-- The tail of volume create after the replica loop
(volume/operations.rs:105-134): on a shortfall destroy every created
replica with disown-all and complete the create with
`ReplicaCreateNumber` under `OnCreateFail::Delete`; otherwise complete
with success.  Returns the volume context, the destroy requests issued,
and the result. -/
def volume_create_completion (want volUuid : Nat) (replicas : List Replica)
    (putOk2 delOk : Bool) (c : Ctx) : Ctx × List DestroyReplica × Except SvcError Unit :=
  if replicas.length < want then
    let destroys := replicas.map destroy_request_disown_all
    match complete_create (.error (.ReplicaCreateNumber volUuid)) putOk2 delOk .Delete c with
    | (c1, r) => (c1, destroys, r)
  else
    match complete_create (.ok ()) putOk2 delOk .Delete c with
    | (c1, r) => (c1, [], r)

/-- Volume create from a started transaction: run the replica loop, then
the completion path. -/
def volume_create (want volUuid : Nat) (candidates : List CreateReplica)
    (ok : Nat → Bool) (putOk2 delOk : Bool) (c : Ctx) :
    Ctx × List DestroyReplica × Except SvcError Unit :=
  volume_create_completion want volUuid (volume_create_replicas want candidates ok)
    putOk2 delOk c

/-! ## Volume republish (volume/operations.rs:423-551) -/

/-- A volume target configuration: the nexus it points at and the allowed
frontend nodes. -/
structure TargetConfig where
  nexusId : Nat
  frontendNodes : List String
deriving DecidableEq, Repr

/-- Modelled from the spec: `frontend().nodename_allowed` — the requested
frontend node must be in the current allowed-hosts list (§4.5.3). -/
def nodename_allowed (cfg : TargetConfig) (nodename : String) : Bool :=
  cfg.frontendNodes.contains nodename

/-- The volume data republish consults: its uuid, the currently active
target configuration (`None` while unpublished), and the volume's
pending-operation cell. -/
structure VolumePub where
  uuid : Nat
  activeConfig : Option TargetConfig
  operation : Option OperationState
deriving DecidableEq, Repr

/-- A `RepublishVolume` request. -/
structure RepublishRequest where
  uuid : Nat
  frontendNode : String
  reuseExisting : Bool
  reuseExistingFallback : Bool
deriving DecidableEq, Repr

/-- The environment outcomes of the republish move path. -/
structure RepublishEnv where
  healthyOk : Bool
  newTargetAvailable : Bool
  oldIsShutdown : Bool
  recreateOk : Bool
  shutdownOk : Bool
  createOk : Bool
  shareOk : Bool
  putOk : Bool
deriving DecidableEq, Repr

/-- The target-config validation at the head of republish
(volume/operations.rs:432-447): an unpublished volume yields
`VolumeNotPublished`; a published one whose allowed-hosts list does not
admit the requested frontend node yields `FrontendNodeNotAllowed`. -/
def republish_target_config (spec : VolumePub) (request : RepublishRequest) :
    Except SvcError TargetConfig :=
  match spec.activeConfig with
  | some cfg =>
    if nodename_allowed cfg request.frontendNode = false then
      .error (.FrontendNodeNotAllowed request.frontendNode request.uuid)
    else .ok cfg
  | none => .error (.VolumeNotPublished request.uuid)

/-- Modelled from the spec: the republish move path (§4.5.3) — when the
old target still has healthy replicas, reuse was requested (or fell back)
and the old nexus is recreated, return with no move; otherwise record a
`Republish` update operation, shut down the old nexus, create and share
the new one, completing or rolling back the update. -/
def republish_move (spec : VolumePub) (request : RepublishRequest) (env : RepublishEnv) :
    VolumePub × Except SvcError Unit :=
  let reuse :=
    if request.reuseExistingFallback && !request.reuseExisting then
      !env.newTargetAvailable
    else request.reuseExisting
  if env.healthyOk && reuse && !env.oldIsShutdown && env.recreateOk then
    (spec, .ok ())
  else if !env.healthyOk && !env.oldIsShutdown then (spec, .error .NotEnoughResources)
  else if !env.newTargetAvailable then (spec, .error .NotEnoughResources)
  else
    let started : VolumePub := { spec with operation := some ⟨.Update 1, none⟩ }
    if !env.putOk then (spec, .error .Store)
    else if !(env.shutdownOk && env.createOk && env.shareOk) then
      ({ started with operation := none }, .error .NotEnoughResources)
    else ({ started with operation := none }, .ok ())

/-- `ResourcePublishing::republish` (volume/operations.rs:423-551): the
validation of the current target configuration happens before any state
is touched; only a validated volume proceeds to the move path. -/
def republish (spec : VolumePub) (request : RepublishRequest) (env : RepublishEnv) :
    VolumePub × Except SvcError Unit :=
  match republish_target_config spec request with
  | .error e => (spec, .error e)
  | .ok _ => republish_move spec request env

/-! ## Operation guard acquisition (operations_helper.rs:798-855) -/

/-- The operation mode; only `Exclusive` is exposed. -/
inductive OperationMode where
  | Exclusive
deriving DecidableEq, Repr

/-- `OperationSequenceGuard::operation_guard_mode`
(operations_helper.rs:824-836): the guard is acquired by test-and-set —
modelled from the spec, acquisition succeeds iff no operation is in
progress — and a failed acquisition is reported as `Conflict`. -/
def operation_guard_mode (inProgress : Bool) (mode : OperationMode) :
    Except SvcError OperationMode :=
  if inProgress then .error .Conflict else .ok mode

/-- The retry loop of `operation_guard_mode_wait`
(operations_helper.rs:837-854) with `tries` attempts remaining and `i`
attempts already made: attempt, return on success, return the error when
the decremented counter hits zero, otherwise sleep 200 ms and retry.
Returns (attempts made, sleep durations in ms, result). -/
def guard_wait_go (inProgress : Nat → Bool) (mode : OperationMode) (i : Nat) :
    Nat → Nat × List Nat × Except SvcError OperationMode
  | 0 => (0, [], .error .Conflict)
  | tries + 1 =>
    match operation_guard_mode (inProgress i) mode with
    | .ok guard => (1, [], .ok guard)
    | .error e =>
      if tries = 0 then (1, [], .error e)
      else
        let r := guard_wait_go inProgress mode (i + 1) tries
        (r.1 + 1, 200 :: r.2.1, r.2.2)

/-- `OperationSequenceGuard::operation_guard_mode_wait`
(operations_helper.rs:837-854): `tries` starts at 5.  `inProgress i`
tells whether another operation holds the sequencer at the i-th
attempt. -/
def operation_guard_mode_wait (inProgress : Nat → Bool) (mode : OperationMode) :
    Nat × List Nat × Except SvcError OperationMode :=
  guard_wait_go inProgress mode 0 5

/-! ## Node registration (agents/core/src/node/specs.rs:13-43) -/

/-- A node spec: identity, gRPC endpoint, labels. -/
structure NodeSpec where
  id : Nat
  endpoint : Nat
  labels : List (Nat × Nat)
deriving DecidableEq, Repr

/-- `NodeSpec::set_endpoint`: endpoint is the only mutable field. -/
def NodeSpec.set_endpoint (n : NodeSpec) (e : Nat) : NodeSpec :=
  { n with endpoint := e }

/-- A `Register` message from a node. -/
structure Register where
  id : Nat
  grpcEndpoint : Nat
deriving DecidableEq, Repr

/-- `ResourceSpecsLocked::register_node` (node/specs.rs:13-43): an
existing node has its endpoint set in place and is written to the store
only when the reported endpoint differs from the stored one; an unknown
node is inserted with empty labels and written.  Returns the updated node
list, the store writes attempted, and the result. -/
def register_node (putOk : Bool) (nodes : List NodeSpec) (node : Register) :
    List NodeSpec × List NodeSpec × Except SvcError NodeSpec :=
  match nodes.find? (fun n => n.id == node.id) with
  | some node_spec =>
    let changed := node_spec.endpoint ≠ node.grpcEndpoint
    let updated := node_spec.set_endpoint node.grpcEndpoint
    let nodes1 := nodes.map (fun n => if n.id == node.id then n.set_endpoint node.grpcEndpoint else n)
    if changed then
      (nodes1, [updated], if putOk then .ok updated else .error .Store)
    else (nodes1, [], .ok updated)
  | none =>
    let fresh : NodeSpec := ⟨node.id, node.grpcEndpoint, []⟩
    (nodes ++ [fresh], [fresh], if putOk then .ok fresh else .error .Store)

/-! ## Helper lemmas -/

theorem creating_eq {st : SpecStatus} (h : st.creating = true) : st = .Creating := by
  cases st <;> simp [SpecStatus.creating] at h ⊢

theorem created_eq {st : SpecStatus} (h : st.created = true) : ∃ k, st = .Created k := by
  cases st <;> simp [SpecStatus.created] at h ⊢

theorem start_create_inner_ok {s : Spec} {request : Nat} {sp : Spec}
    (h : s.start_create_inner request = .ok sp) :
    sp = s.start_create_op request ∧ s.operation = none ∧ s.status = .Creating := by
  unfold Spec.start_create_inner Spec.busy Spec.dirty Spec.has_pending_op at h
  cases hop : s.operation with
  | some o => rw [hop] at h; simp at h
  | none =>
    rw [hop] at h
    simp only [Option.isSome_none, Bool.false_eq_true, if_false] at h
    split_ifs at h with h0 h1 h2 h3
    exact ⟨by injection h with h4; exact h4.symm, rfl, creating_eq h1⟩

/-! ## C5: idempotent re-create -/

/-- C5 counterexample: the claim asserts that a repeated create returns
the same resource whenever the second request deep-equals the stored one,
but a spec already in `Created` status answers `AlreadyExists` even for a
deep-equal retry. -/
theorem C5_counterexample :
    Spec.eq_create ⟨1, .Created 0, none, [], 9, 0⟩ 9 = true ∧
    Spec.start_create_inner ⟨1, .Created 0, none, [], 9, 0⟩ 9 =
      .error (.AlreadyExists 1) := by
  constructor
  · decide
  · decide

/-- C5 (amended): for a spec with no pending operation and a
non-default uuid, a retry while `Creating` restarts the create operation
iff the request deep-equals the stored one and returns `ReCreateMismatch`
otherwise; in `Created` status any retry returns `AlreadyExists`; in
`Deleting` or `Deleted` status it returns the deleting error. -/
theorem C5_recreate (s : Spec) (request : Nat) (hop : s.operation = none)
    (huuid : s.uuid ≠ 0) :
    (s.status = .Creating →
      (s.eq_create request = true →
        s.start_create_inner request = .ok (s.start_create_op request)) ∧
      (s.eq_create request = false →
        s.start_create_inner request = .error (.ReCreateMismatch s.uuid))) ∧
    (∀ k, s.status = .Created k →
      s.start_create_inner request = .error (.AlreadyExists s.uuid)) ∧
    ((s.status = .Deleting ∨ s.status = .Deleted) →
      s.start_create_inner request = .error .Deleting) := by
  unfold Spec.start_create_inner Spec.busy Spec.dirty Spec.has_pending_op
  rw [hop]
  refine ⟨fun hst => ?_, fun k hst => ?_, fun hst => ?_⟩
  · rw [hst]
    constructor
    · intro heq
      simp [SpecStatus.creating, huuid, heq]
    · intro heq
      simp [SpecStatus.creating, huuid, heq]
  · rw [hst]
    simp [SpecStatus.creating, SpecStatus.created, huuid]
  · rcases hst with hst | hst <;> rw [hst] <;>
      simp [SpecStatus.creating, SpecStatus.created, huuid]

/-- C5 witness: the amended theorem at a concrete matching retry while
`Creating`. -/
theorem C5_witness :
    Spec.start_create_inner ⟨1, .Creating, none, [], 9, 0⟩ 9 =
      .ok (Spec.start_create_op ⟨1, .Creating, none, [], 9, 0⟩ 9) :=
  ((C5_recreate ⟨1, .Creating, none, [], 9, 0⟩ 9 rfl (by decide)).1 rfl).1 (by decide)

/-! ## C4: start-destroy -/

/-- C4 counterexample: the claim asserts start-destroy returns `Ok`
immediately whenever the status is already `Deleted`, but the busy check
runs first — a `Deleted` spec with a pending operation gets `StoreDirty`
instead. -/
theorem C4_counterexample :
    (Ctx.spec ⟨⟨1, .Deleted, some ⟨.Destroy, some false⟩, [], 0, 0⟩, true, none⟩).status
        = .Deleted ∧
    start_destroy_by true [] ⟨⟨1, .Deleted, some ⟨.Destroy, some false⟩, [], 0, 0⟩, true, none⟩ =
      (⟨⟨1, .Deleted, some ⟨.Destroy, some false⟩, [], 0, 0⟩, true, none⟩,
        .error (.StoreDirty 1)) := by
  constructor
  · decide
  · decide

/-- C4 (amended): start-destroy first rejects a busy spec with
`StoreDirty`; a non-busy spec already `Deleted` gets `Ok` with nothing
changed; otherwise the requesting disowners are removed and, if owners
remain, `InUse` is returned with only that disown applied; only when no
owners remain is the status set to `Deleting`, all owners cleared and a
`Destroy` operation recorded and logged to the store. -/
theorem C4_start_destroy (putOk : Bool) (disowners : List Nat) (c : Ctx) :
    (c.spec.has_pending_op = true →
      start_destroy_by putOk disowners c = (c, .error (.StoreDirty c.spec.uuid))) ∧
    (c.spec.operation = none → c.spec.status = .Deleted →
      start_destroy_by putOk disowners c = (c, .ok ())) ∧
    (c.spec.operation = none → c.spec.status.deleted = false →
      (c.spec.disown disowners).owned = true →
      start_destroy_by putOk disowners c =
        ({ c with spec := c.spec.disown disowners }, .error (.InUse c.spec.uuid))) ∧
    (c.spec.operation = none → c.spec.status.deleted = false →
      (c.spec.disown disowners).owned = false →
      start_destroy_by putOk disowners c =
        (if putOk then
          (⟨⟨c.spec.uuid, .Deleting, some ⟨.Destroy, none⟩, [], c.spec.params, c.spec.uparams⟩,
             c.inRegistry,
             some ⟨c.spec.uuid, .Deleting, some ⟨.Destroy, none⟩, [], c.spec.params,
               c.spec.uparams⟩⟩, .ok ())
         else
          (⟨⟨c.spec.uuid, .Deleting, none, [], c.spec.params, c.spec.uparams⟩,
             c.inRegistry, c.store⟩, .error .Store))) := by
  refine ⟨fun hbusy => ?_, fun hop hst => ?_, fun hop hst hown => ?_, fun hop hst hown => ?_⟩
  · unfold start_destroy_by Spec.busy Spec.dirty
    rw [hbusy]
    rfl
  · unfold start_destroy_by Spec.busy Spec.dirty Spec.has_pending_op
    rw [hop, hst]
    rfl
  · unfold start_destroy_by Spec.busy Spec.dirty Spec.has_pending_op
    rw [hop]
    simp only [Option.isSome_none, Bool.false_eq_true, if_false, hst, hown]
    have : (c.spec.disown disowners).uuid = c.spec.uuid := rfl
    simp [this]
  · unfold start_destroy_by Spec.busy Spec.dirty Spec.has_pending_op
    rw [hop]
    simp only [Option.isSome_none, Bool.false_eq_true, if_false, hst, hown]
    have hs2 : ((((c.spec.disown disowners).set_status .Deleting)).disown_all).start_destroy_op =
        ⟨c.spec.uuid, .Deleting, some ⟨.Destroy, none⟩, [], c.spec.params, c.spec.uparams⟩ := by
      unfold Spec.disown Spec.set_status Spec.disown_all Spec.start_destroy_op Spec.start_op
      rfl
    cases putOk with
    | true =>
      simp only [if_true]
      unfold store_operation_log store_obj
      simp [hs2]
    | false =>
      simp only [Bool.false_eq_true, if_false]
      unfold store_operation_log store_obj
      simp [hs2, Spec.clear_op]

/-- C4 witness: the amended theorem's final conjunct at a concrete
unowned spec, recording the `Destroy` operation. -/
theorem C4_witness :
    start_destroy_by true [7] ⟨⟨3, .Created 0, none, [7], 4, 0⟩, true, none⟩ =
      (⟨⟨3, .Deleting, some ⟨.Destroy, none⟩, [], 4, 0⟩, true,
        some ⟨3, .Deleting, some ⟨.Destroy, none⟩, [], 4, 0⟩⟩, .ok ()) := by
  have h := (C4_start_destroy true [7] ⟨⟨3, .Created 0, none, [7], 4, 0⟩, true, none⟩).2.2.2
    rfl (by decide) (by decide)
  simpa using h

theorem clear_op_of_none {s : Spec} (h : s.operation = none) : s.clear_op = s := by
  cases s with
  | mk u st op ow p up =>
    simp only [Spec.clear_op]
    simp only at h
    rw [h]

theorem set_op_result_of_none {s : Spec} (b : Bool) (h : s.operation = none) :
    s.set_op_result b = s := by
  unfold Spec.set_op_result
  rw [h]

/-! ## C1: intent-log put failure during start-create -/

/-- C1 counterexample: the claim asserts that after a failed intent-log
put the spec stays in the registry; but `start_create` then calls
`delete_spec`, and when the store delete succeeds the spec is removed
from the registry. -/
theorem C1_counterexample :
    (start_create false true 5 ⟨⟨1, .Creating, none, [], 5, 0⟩, true, none⟩).2 =
        .error .Store ∧
    (start_create false true 5 ⟨⟨1, .Creating, none, [], 5, 0⟩, true, none⟩).1.inRegistry =
        false := by
  constructor
  · decide
  · decide

/-- C1 (amended): when the intent-log put fails, start-create returns the
store error with the pending operation cleared (the spec's value is back
to what it was); it then attempts to delete the spec from the store — if
that delete succeeds the spec is removed from the registry and the store,
otherwise the context is left unchanged, the spec still present with
status `Creating`. -/
theorem C1_put_failure (c : Ctx) (request : Nat) (delOk : Bool) (sp : Spec)
    (h : c.spec.start_create_inner request = .ok sp) :
    (start_create false delOk request c).2 = .error .Store ∧
    (start_create false delOk request c).1.spec = c.spec ∧
    c.spec.status = .Creating ∧
    (delOk = true → (start_create false delOk request c).1 = ⟨c.spec, false, none⟩) ∧
    (delOk = false → (start_create false delOk request c).1 = c) := by
  obtain ⟨hsp, hopnone, hst⟩ := start_create_inner_ok h
  have hclear : sp.clear_op = c.spec := by
    rw [hsp]
    have h1 : (c.spec.start_create_op request).clear_op = c.spec.clear_op := rfl
    rw [h1, clear_op_of_none hopnone]
  have hrun : start_create false delOk request c =
      ((delete_spec delOk { c with spec := c.spec }).1, .error .Store) := by
    unfold start_create
    rw [h]
    unfold store_operation_log store_obj
    simp [hclear]
  rw [hrun]
  cases delOk with
  | true =>
    unfold delete_spec delete_kv remove_spec
    simp [hst]
  | false =>
    unfold delete_spec delete_kv
    simp [hst, set_op_result_of_none _ hopnone]

/-- C1 witness: the amended theorem at a concrete fresh spec whose
intent-log put and subsequent store delete both fail. -/
theorem C1_witness :
    (start_create false false 5 ⟨⟨1, .Creating, none, [], 5, 0⟩, true, none⟩).2 =
        .error .Store ∧
    (start_create false false 5 ⟨⟨1, .Creating, none, [], 5, 0⟩, true, none⟩).1 =
        ⟨⟨1, .Creating, none, [], 5, 0⟩, true, none⟩ :=
  ⟨(C1_put_failure ⟨⟨1, .Creating, none, [], 5, 0⟩, true, none⟩ 5 false
      ⟨1, .Creating, some ⟨.Create 5, none⟩, [], 5, 0⟩ (by decide)).1,
   (C1_put_failure ⟨⟨1, .Creating, none, [], 5, 0⟩, true, none⟩ 5 false
      ⟨1, .Creating, some ⟨.Create 5, none⟩, [], 5, 0⟩ (by decide)).2.2.2.2 rfl⟩

/-! ## C2: incomplete-op recovery -/

/-- C2: incomplete-op handling — a `Creating` spec under the
`SetDeleting` policy is moved to `Deleting`; any other recoverable status
dispatches on `operation_result()`: `Some(Some(true))` re-commits and
re-puts, `Some(Some(false))` re-clears and re-puts, `Some(None)`
pessimistically re-clears and re-puts; in each store-write case the
in-memory commit/clear happens only if the store write succeeds. -/
theorem C2_incomplete_ops (c : Ctx) (onFail : OnCreateFail) (putOk delOk : Bool) :
    (c.spec.status = .Creating → onFail = .SetDeleting →
      handle_incomplete_ops_ext onFail putOk delOk c =
        ({ c with spec := c.spec.set_status .Deleting }, true)) ∧
    ((c.spec.status.created = true ∨ c.spec.status = .Deleting ∨
        (c.spec.status = .Creating ∧ onFail ≠ .SetDeleting)) →
      handle_incomplete_ops_ext onFail putOk delOk c = handle_incomplete_updates putOk c) ∧
    (c.spec.operation_result = some (some true) →
      handle_incomplete_updates putOk c =
        if putOk then
          ({ c with spec := c.spec.commit_op, store := some c.spec.commit_op }, true)
        else (c, false)) ∧
    ((c.spec.operation_result = some (some false) ∨ c.spec.operation_result = some none) →
      handle_incomplete_updates putOk c =
        if putOk then
          ({ c with spec := c.spec.clear_op, store := some c.spec.clear_op }, true)
        else (c, false)) := by
  refine ⟨fun hst honf => ?_, fun hcase => ?_, fun hres => ?_, fun hres => ?_⟩
  · unfold handle_incomplete_ops_ext
    rw [hst, honf]
  · unfold handle_incomplete_ops_ext
    rcases hcase with hcr | hdel | ⟨hcr, hne⟩
    · obtain ⟨k, hk⟩ := created_eq hcr
      rw [hk]
    · rw [hdel]
    · rw [hcr]
      cases onFail with
      | LeaveAsIs => rfl
      | SetDeleting => exact absurd rfl hne
      | Delete => rfl
  · unfold handle_incomplete_updates store_obj complete_op
    rw [hres]
    cases putOk <;> simp
  · unfold handle_incomplete_updates store_obj
    rcases hres with hres | hres <;> rw [hres] <;> cases putOk <;> simp

/-- C2 witness: recovery of a concrete `Creating` spec under
`SetDeleting`, and re-commit of a concrete pending operation whose side
effect had completed. -/
theorem C2_witness :
    handle_incomplete_ops_ext .SetDeleting true true
        ⟨⟨1, .Creating, some ⟨.Create 5, some true⟩, [], 5, 0⟩, true, none⟩ =
      (⟨⟨1, .Deleting, some ⟨.Create 5, some true⟩, [], 5, 0⟩, true, none⟩, true) ∧
    handle_incomplete_updates true
        ⟨⟨1, .Deleting, some ⟨.Destroy, some true⟩, [], 5, 0⟩, true, none⟩ =
      (⟨⟨1, .Deleted, none, [], 5, 0⟩, true, some ⟨1, .Deleted, none, [], 5, 0⟩⟩, true) := by
  constructor
  · have h := (C2_incomplete_ops
      ⟨⟨1, .Creating, some ⟨.Create 5, some true⟩, [], 5, 0⟩, true, none⟩
      .SetDeleting true true).1 rfl rfl
    simpa using h
  · have h := (C2_incomplete_ops
      ⟨⟨1, .Deleting, some ⟨.Destroy, some true⟩, [], 5, 0⟩, true, none⟩
      .SetDeleting true true).2.2.1 (by decide)
    simpa using h

/-! ## C9: waiting guard acquisition -/

theorem guard_wait_go_spec (inProgress : Nat → Bool) (mode : OperationMode) :
    ∀ (tries i : Nat), 1 ≤ tries →
      1 ≤ (guard_wait_go inProgress mode i tries).1 ∧
      (guard_wait_go inProgress mode i tries).1 ≤ tries ∧
      (guard_wait_go inProgress mode i tries).2.1 =
        List.replicate ((guard_wait_go inProgress mode i tries).1 - 1) 200 ∧
      ((∀ j, j < tries → inProgress (i + j) = true) →
        (guard_wait_go inProgress mode i tries).1 = tries ∧
        (guard_wait_go inProgress mode i tries).2.2 = .error .Conflict) ∧
      (∀ k, k < tries → inProgress (i + k) = false →
        (∀ j, j < k → inProgress (i + j) = true) →
        (guard_wait_go inProgress mode i tries).1 = k + 1 ∧
        (guard_wait_go inProgress mode i tries).2.2 = .ok mode) := by
  intro tries
  induction tries with
  | zero => intro i h1; exact absurd h1 (by omega)
  | succ t ih =>
    intro i _
    by_cases hbusy : inProgress i = true
    · by_cases ht : t = 0
      · subst ht
        have hstep : guard_wait_go inProgress mode i 1 = (1, [], .error .Conflict) := by
          simp [guard_wait_go, operation_guard_mode, hbusy]
        rw [hstep]
        refine ⟨le_refl 1, le_refl 1, by simp, fun _ => ⟨rfl, rfl⟩, ?_⟩
        intro k hk hfree _
        interval_cases k
        rw [Nat.add_zero, hbusy] at hfree
        exact absurd hfree (by simp)
      · have ih1 := ih (i + 1) (by omega)
        obtain ⟨ha1, ha2, ha3, ha4, ha5⟩ := ih1
        have hstep : guard_wait_go inProgress mode i (t + 1) =
            ((guard_wait_go inProgress mode (i + 1) t).1 + 1,
             200 :: (guard_wait_go inProgress mode (i + 1) t).2.1,
             (guard_wait_go inProgress mode (i + 1) t).2.2) := by
          simp [guard_wait_go, operation_guard_mode, hbusy, ht]
        rw [hstep]
        refine ⟨by omega, by omega, ?_, ?_, ?_⟩
        · simp only []
          rw [ha3]
          have h9 : (guard_wait_go inProgress mode (i + 1) t).1 + 1 - 1 =
              ((guard_wait_go inProgress mode (i + 1) t).1 - 1) + 1 := by omega
          rw [h9, List.replicate_succ]
        · intro hall
          have hrec := ha4 (fun j hj => by
            have hje := hall (j + 1) (by omega)
            have heq : i + 1 + j = i + (j + 1) := by omega
            rw [heq]
            exact hje)
          exact ⟨by omega, hrec.2⟩
        · intro k hk hfree hbefore
          cases k with
          | zero =>
            rw [Nat.add_zero, hbusy] at hfree
            exact absurd hfree (by simp)
          | succ k1 =>
            have hrec := ha5 k1 (by omega)
              (by have heq : i + 1 + k1 = i + (k1 + 1) := by omega
                  rw [heq]; exact hfree)
              (fun j hj => by
                have hje := hbefore (j + 1) (by omega)
                have heq : i + 1 + j = i + (j + 1) := by omega
                rw [heq]; exact hje)
            exact ⟨by omega, hrec.2⟩
    · have hfree : inProgress i = false := by
        cases h : inProgress i
        · rfl
        · exact absurd h hbusy
      have hstep : guard_wait_go inProgress mode i (t + 1) = (1, [], .ok mode) := by
        simp [guard_wait_go, operation_guard_mode, hfree]
      rw [hstep]
      refine ⟨le_refl 1, by omega, by simp, ?_, ?_⟩
      · intro hall
        have h0 := hall 0 (by omega)
        rw [Nat.add_zero, hfree] at h0
        exact absurd h0 (by simp)
      · intro k hk hfreek hbefore
        cases k with
        | zero => exact ⟨rfl, rfl⟩
        | succ k1 =>
          have h0 := hbefore 0 (by omega)
          rw [Nat.add_zero, hfree] at h0
          exact absurd h0 (by simp)

/-- C9: the waiting guard acquisition makes at most 5 attempts (at least
one), sleeps 200 ms between consecutive attempts (one sleep fewer than
attempts), returns the exclusive guard at the first attempt that finds no
operation in progress, and returns `Conflict` when all 5 attempts find an
operation in progress. -/
theorem C9_guard_wait (inProgress : Nat → Bool) (mode : OperationMode) :
    (operation_guard_mode_wait inProgress mode).1 ≤ 5 ∧
    1 ≤ (operation_guard_mode_wait inProgress mode).1 ∧
    (operation_guard_mode_wait inProgress mode).2.1 =
      List.replicate ((operation_guard_mode_wait inProgress mode).1 - 1) 200 ∧
    ((∀ i, i < 5 → inProgress i = true) →
      (operation_guard_mode_wait inProgress mode).1 = 5 ∧
      (operation_guard_mode_wait inProgress mode).2.2 = .error .Conflict) ∧
    (∀ k, k < 5 → inProgress k = false → (∀ j, j < k → inProgress j = true) →
      (operation_guard_mode_wait inProgress mode).1 = k + 1 ∧
      (operation_guard_mode_wait inProgress mode).2.2 = .ok mode) := by
  have h := guard_wait_go_spec inProgress mode 5 0 (by omega)
  obtain ⟨h1, h2, h3, h4, h5⟩ := h
  refine ⟨h2, h1, h3, ?_, ?_⟩
  · intro hall
    exact h4 (fun j hj => by simpa using hall j hj)
  · intro k hk hfree hbefore
    exact h5 k hk (by simpa using hfree) (fun j hj => by simpa using hbefore j hj)

/-- C9 witness: a sequencer busy on the first two attempts and free on
the third yields the guard after 3 attempts and 2 sleeps of 200 ms; a
sequencer always busy yields `Conflict` after 5 attempts. -/
theorem C9_witness :
    (operation_guard_mode_wait (fun i => i < 2) .Exclusive).1 = 3 ∧
    (operation_guard_mode_wait (fun i => i < 2) .Exclusive).2.2 = .ok .Exclusive ∧
    (operation_guard_mode_wait (fun _ => true) .Exclusive).1 = 5 ∧
    (operation_guard_mode_wait (fun _ => true) .Exclusive).2.2 = .error .Conflict := by
  have h1 := (C9_guard_wait (fun i => decide (i < 2)) .Exclusive).2.2.2.2 2
    (by omega) (by decide) (fun j hj => by
      interval_cases j
      · decide
      · decide)
  have h2 := (C9_guard_wait (fun _ => true) .Exclusive).2.2.2.1 (fun i _ => rfl)
  exact ⟨h1.1, h1.2, h2.1, h2.2⟩

/-! ## C10: node registration -/

theorem NodeSpec.set_endpoint_self (n : NodeSpec) : n.set_endpoint n.endpoint = n := by
  cases n
  rfl

/-- C10: re-registering an existing node with an unchanged endpoint
performs no store write and leaves the node list (in particular the
node's labels) unchanged; a changed endpoint writes exactly the node spec
with only the endpoint replaced (same id, same labels); an unknown node
is inserted with empty labels and written to the store. -/
theorem C10_register_node (putOk : Bool) (nodes : List NodeSpec) (node : Register)
    (hnodup : (nodes.map NodeSpec.id).Nodup) :
    (∀ ns0, nodes.find? (fun n => n.id == node.id) = some ns0 →
      ns0.endpoint = node.grpcEndpoint →
      register_node putOk nodes node = (nodes, [], .ok ns0)) ∧
    (∀ ns0, nodes.find? (fun n => n.id == node.id) = some ns0 →
      ns0.endpoint ≠ node.grpcEndpoint →
      register_node putOk nodes node =
        (nodes.map (fun n => if n.id == node.id then n.set_endpoint node.grpcEndpoint else n),
         [⟨ns0.id, node.grpcEndpoint, ns0.labels⟩],
         if putOk then .ok ⟨ns0.id, node.grpcEndpoint, ns0.labels⟩ else .error .Store)) ∧
    (nodes.find? (fun n => n.id == node.id) = none →
      register_node putOk nodes node =
        (nodes ++ [⟨node.id, node.grpcEndpoint, []⟩], [⟨node.id, node.grpcEndpoint, []⟩],
         if putOk then .ok ⟨node.id, node.grpcEndpoint, []⟩ else .error .Store)) := by
  refine ⟨fun ns0 hfind heq => ?_, fun ns0 hfind hne => ?_, fun hfind => ?_⟩
  · have hmem : ns0 ∈ nodes := List.mem_of_find?_eq_some hfind
    have hid : ns0.id = node.id := by
      have := List.find?_some hfind
      simpa using this
    have hmap : nodes.map
        (fun n => if n.id == node.id then n.set_endpoint node.grpcEndpoint else n) = nodes := by
      have hcongr : nodes.map
          (fun n => if n.id == node.id then n.set_endpoint node.grpcEndpoint else n) =
          nodes.map id := by
        apply List.map_congr_left
        intro n hn
        show (if n.id == node.id then n.set_endpoint node.grpcEndpoint else n) = n
        by_cases hnid : n.id = node.id
        · have hn_eq : n = ns0 :=
            List.inj_on_of_nodup_map hnodup hn hmem (by rw [hnid, hid])
          subst hn_eq
          simp only [hnid, beq_self_eq_true, if_true]
          rw [← heq, NodeSpec.set_endpoint_self]
        · simp [hnid]
      rw [hcongr, List.map_id]
    unfold register_node
    rw [hfind]
    simp only [heq, ne_eq, not_true_eq_false, if_false, hmap]
    rw [← heq, NodeSpec.set_endpoint_self]
  · unfold register_node
    rw [hfind]
    have hupd : ns0.set_endpoint node.grpcEndpoint = ⟨ns0.id, node.grpcEndpoint, ns0.labels⟩ := rfl
    simp only [ne_eq, hne, not_false_eq_true, if_true, hupd]
  · unfold register_node
    rw [hfind]

/-- C10 witness: concrete re-registration with an unchanged endpoint
(no write, labels kept) and with a changed endpoint (endpoint-only
update). -/
theorem C10_witness :
    register_node true [⟨1, 10, [(5, 6)]⟩] ⟨1, 10⟩ =
      ([⟨1, 10, [(5, 6)]⟩], [], .ok ⟨1, 10, [(5, 6)]⟩) ∧
    register_node true [⟨1, 10, [(5, 6)]⟩] ⟨1, 20⟩ =
      ([⟨1, 20, [(5, 6)]⟩], [⟨1, 20, [(5, 6)]⟩], .ok ⟨1, 20, [(5, 6)]⟩) := by
  constructor
  · exact (C10_register_node true [⟨1, 10, [(5, 6)]⟩] ⟨1, 10⟩ (by decide)).1
      ⟨1, 10, [(5, 6)]⟩ (by decide) rfl
  · have h := (C10_register_node true [⟨1, 10, [(5, 6)]⟩] ⟨1, 20⟩ (by decide)).2.1
      ⟨1, 10, [(5, 6)]⟩ (by decide) (by decide)
    simpa using h

/-! ## C8: republish validation -/

/-- C8: republish returns `VolumeNotPublished` when the volume has no
active target configuration and `FrontendNodeNotAllowed` when the
requested frontend node is not in the current configuration's
allowed-hosts list; in both cases the volume (in particular its
pending-operation cell) is returned unchanged — no update operation is
started. -/
theorem C8_republish (spec : VolumePub) (request : RepublishRequest) (env : RepublishEnv) :
    (spec.activeConfig = none →
      republish spec request env = (spec, .error (.VolumeNotPublished request.uuid))) ∧
    (∀ cfg, spec.activeConfig = some cfg →
      nodename_allowed cfg request.frontendNode = false →
      republish spec request env =
        (spec, .error (.FrontendNodeNotAllowed request.frontendNode request.uuid))) := by
  constructor
  · intro h
    unfold republish republish_target_config
    rw [h]
  · intro cfg h hn
    unfold republish republish_target_config
    rw [h]
    simp [hn]

/-- C8 witness: a concrete unpublished volume and a concrete published
volume whose allowed-hosts list does not contain the requested node. -/
theorem C8_witness :
    republish ⟨1, none, none⟩ ⟨1, "n1", false, false⟩
        ⟨true, true, false, true, true, true, true, true⟩ =
      (⟨1, none, none⟩, .error (.VolumeNotPublished 1)) ∧
    republish ⟨2, some ⟨9, ["n1", "n2"]⟩, none⟩ ⟨2, "n3", false, false⟩
        ⟨true, true, false, true, true, true, true, true⟩ =
      (⟨2, some ⟨9, ["n1", "n2"]⟩, none⟩, .error (.FrontendNodeNotAllowed "n3" 2)) :=
  ⟨(C8_republish ⟨1, none, none⟩ ⟨1, "n1", false, false⟩
      ⟨true, true, false, true, true, true, true, true⟩).1 rfl,
   (C8_republish ⟨2, some ⟨9, ["n1", "n2"]⟩, none⟩ ⟨2, "n3", false, false⟩
      ⟨true, true, false, true, true, true, true, true⟩).2 ⟨9, ["n1", "n2"]⟩ rfl (by decide)⟩

/-! ## C6: the replica-creation loop of volume create -/

theorem isEmpty_false_of_ne_nil {α : Type} {l : List α} (h : l ≠ []) :
    l.isEmpty = false := by
  cases l with
  | nil => exact absurd rfl h
  | cons a t => rfl

theorem mkReplica_node (c : CreateReplica) (repls : List Replica) :
    (mkReplica (if repls.isEmpty then { c with share := Protocol.none } else c)).node =
      c.node := by
  by_cases h : repls.isEmpty <;> simp [h, mkReplica]

/-- New replicas appended past a non-empty accumulator are built from the
candidate list without demotion. -/
theorem create_replicas_go_tail (want : Nat) (ok : Nat → Bool) :
    ∀ (cands : List CreateReplica) (acc : List Replica) (i : Nat), acc ≠ [] →
      ∃ t, create_replicas_go want ok cands acc i = acc ++ t ∧
        ∀ r ∈ t, ∃ cand ∈ cands, r = mkReplica cand := by
  intro cands
  induction cands with
  | nil =>
    intro acc i hne
    exact ⟨[], by simp [create_replicas_go], by simp⟩
  | cons c rest ih =>
    intro acc i hne
    by_cases hfull : want ≤ acc.length
    · exact ⟨[], by simp [create_replicas_go, hfull], by simp⟩
    · by_cases hskip : acc.any (fun r => r.node = c.node) = true
      · obtain ⟨t, ht, hprov⟩ := ih acc i hne
        refine ⟨t, ?_, ?_⟩
        · rw [create_replicas_go]
          simp only [hfull, if_false, hskip, if_true]
          exact ht
        · intro r hr
          obtain ⟨cand, hc1, hc2⟩ := hprov r hr
          exact ⟨cand, List.mem_cons_of_mem c hc1, hc2⟩
      · have hemp : acc.isEmpty = false := isEmpty_false_of_ne_nil hne
        by_cases hok : ok i = true
        · obtain ⟨t, ht, hprov⟩ := ih (acc ++ [mkReplica c]) (i + 1) (by simp)
          refine ⟨mkReplica c :: t, ?_, ?_⟩
          · rw [create_replicas_go]
            simp only [hfull, if_false, hskip, hemp, Bool.false_eq_true, hok, if_true]
            rw [ht]
            simp
          · intro r hr
            rcases List.mem_cons.mp hr with hr | hr
            · exact ⟨c, List.mem_cons_self c rest, hr⟩
            · obtain ⟨cand, hc1, hc2⟩ := hprov r hr
              exact ⟨cand, List.mem_cons_of_mem c hc1, hc2⟩
        · obtain ⟨t, ht, hprov⟩ := ih acc (i + 1) hne
          refine ⟨t, ?_, ?_⟩
          · rw [create_replicas_go]
            simp only [hfull, if_false, hskip, hemp, Bool.false_eq_true, hok]
            exact ht
          · intro r hr
            obtain ⟨cand, hc1, hc2⟩ := hprov r hr
            exact ⟨cand, List.mem_cons_of_mem c hc1, hc2⟩

/-- The loop never grows the accumulator past the requested factor. -/
theorem create_replicas_go_length (want : Nat) (ok : Nat → Bool) :
    ∀ (cands : List CreateReplica) (acc : List Replica) (i : Nat),
      acc.length ≤ want → (create_replicas_go want ok cands acc i).length ≤ want := by
  intro cands
  induction cands with
  | nil => intro acc i h; simpa [create_replicas_go] using h
  | cons c rest ih =>
    intro acc i h
    rw [create_replicas_go]
    by_cases hfull : want ≤ acc.length
    · simpa [hfull] using h
    · simp only [hfull, if_false]
      by_cases hskip : acc.any (fun r => r.node = c.node) = true
      · simp only [hskip, if_true]
        exact ih acc i h
      · simp only [hskip, Bool.false_eq_true, if_false]
        by_cases hok : ok i = true
        · simp only [hok, if_true]
          exact ih (acc ++ [_]) (i + 1) (by simp; omega)
        · simp only [hok, Bool.false_eq_true, if_false]
          exact ih acc (i + 1) h

/-- No two replicas created by the loop land on the same node. -/
theorem create_replicas_go_nodup (want : Nat) (ok : Nat → Bool) :
    ∀ (cands : List CreateReplica) (acc : List Replica) (i : Nat),
      (acc.map Replica.node).Nodup →
      ((create_replicas_go want ok cands acc i).map Replica.node).Nodup := by
  intro cands
  induction cands with
  | nil => intro acc i h; simpa [create_replicas_go] using h
  | cons c rest ih =>
    intro acc i h
    rw [create_replicas_go]
    by_cases hfull : want ≤ acc.length
    · simpa [hfull] using h
    · simp only [hfull, if_false]
      by_cases hskip : acc.any (fun r => r.node = c.node) = true
      · simp only [hskip, if_true]
        exact ih acc i h
      · simp only [hskip, Bool.false_eq_true, if_false]
        by_cases hok : ok i = true
        · simp only [hok, if_true]
          refine ih _ (i + 1) ?_
          have hnotmem : c.node ∉ acc.map Replica.node := by
            intro hmem
            obtain ⟨r, hr, hrn⟩ := List.mem_map.mp hmem
            have : acc.any (fun r => r.node = c.node) = true :=
              List.any_eq_true.mpr ⟨r, hr, by simp [hrn]⟩
            exact hskip this
          simp only [List.map_append, List.map_cons, List.map_nil]
          rw [mkReplica_node]
          simp [List.nodup_append, h, hnotmem]
        · simp only [hok, Bool.false_eq_true, if_false]
          exact ih acc (i + 1) h

/-- Starting from an empty accumulator, the first created replica is the
demoted one: its share protocol is `None`. -/
theorem create_replicas_go_head (want : Nat) (ok : Nat → Bool) :
    ∀ (cands : List CreateReplica) (i : Nat) (r : Replica),
      (create_replicas_go want ok cands [] i).head? = some r →
      r.share = Protocol.none := by
  intro cands
  induction cands with
  | nil => intro i r h; simp [create_replicas_go] at h
  | cons c rest ih =>
    intro i r h
    rw [create_replicas_go] at h
    by_cases hfull : want ≤ ([] : List Replica).length
    · have hw : want = 0 := by simpa using hfull
      rw [hw] at h
      simp at h
    · simp only [hfull, if_false] at h
      have hskip : (([] : List Replica).any (fun r => r.node = c.node)) = false := rfl
      rw [hskip] at h
      simp only [Bool.false_eq_true, if_false, List.isEmpty_nil, if_true] at h
      by_cases hok : ok i = true
      · rw [hok] at h
        simp only [if_true, List.nil_append] at h
        obtain ⟨t, ht, _⟩ := create_replicas_go_tail want ok rest
          [mkReplica { c with share := Protocol.none }] (i + 1) (by simp)
        rw [ht] at h
        simp only [List.cons_append, List.head?_cons, Option.some.injEq] at h
        rw [← h]
        rfl
      · rw [Bool.not_eq_true] at hok
        rw [hok] at h
        simp only [Bool.false_eq_true, if_false] at h
        exact ih (i + 1) r h

/-- Every replica after the first comes from a candidate unchanged — in
particular it keeps the candidate's share protocol. -/
theorem create_replicas_go_drop_one (want : Nat) (ok : Nat → Bool) :
    ∀ (cands : List CreateReplica) (i : Nat),
      ∀ r ∈ (create_replicas_go want ok cands [] i).drop 1,
        ∃ cand ∈ cands, r = mkReplica cand := by
  intro cands
  induction cands with
  | nil => intro i r h; simp [create_replicas_go] at h
  | cons c rest ih =>
    intro i r h
    rw [create_replicas_go] at h
    by_cases hfull : want ≤ ([] : List Replica).length
    · have hw : want = 0 := by simpa using hfull
      rw [hw] at h
      simp at h
    · simp only [hfull, if_false] at h
      have hskip : (([] : List Replica).any (fun r => r.node = c.node)) = false := rfl
      rw [hskip] at h
      simp only [Bool.false_eq_true, if_false, List.isEmpty_nil, if_true] at h
      by_cases hok : ok i = true
      · rw [hok] at h
        simp only [if_true, List.nil_append] at h
        obtain ⟨t, ht, hprov⟩ := create_replicas_go_tail want ok rest
          [mkReplica { c with share := Protocol.none }] (i + 1) (by simp)
        rw [ht] at h
        simp only [List.cons_append, List.drop_succ_cons, List.drop_zero, List.nil_append] at h
        obtain ⟨cand, hc1, hc2⟩ := hprov r h
        exact ⟨cand, List.mem_cons_of_mem c hc1, hc2⟩
      · rw [Bool.not_eq_true] at hok
        rw [hok] at h
        simp only [Bool.false_eq_true, if_false] at h
        obtain ⟨cand, hc1, hc2⟩ := ih (i + 1) r h
        exact ⟨cand, List.mem_cons_of_mem c hc1, hc2⟩

/-- Once the accumulator holds the requested factor, further candidates
are ignored. -/
theorem create_replicas_go_stop (want : Nat) (ok : Nat → Bool) :
    ∀ (extra : List CreateReplica) (acc : List Replica) (i : Nat),
      acc.length = want → create_replicas_go want ok extra acc i = acc := by
  intro extra acc i h
  cases extra with
  | nil => rw [create_replicas_go]
  | cons c rest =>
    rw [create_replicas_go]
    simp [h.ge]

/-- Appending candidates past the point where the factor was reached does
not change the outcome. -/
theorem create_replicas_go_append (want : Nat) (ok : Nat → Bool) :
    ∀ (cands extra : List CreateReplica) (acc : List Replica) (i : Nat),
      (create_replicas_go want ok cands acc i).length = want →
      create_replicas_go want ok (cands ++ extra) acc i =
        create_replicas_go want ok cands acc i := by
  intro cands
  induction cands with
  | nil =>
    intro extra acc i h
    rw [create_replicas_go] at h ⊢
    simp only [List.nil_append]
    exact create_replicas_go_stop want ok extra acc i h
  | cons c rest ih =>
    intro extra acc i h
    rw [List.cons_append]
    by_cases hfull : want ≤ acc.length
    · have hL : create_replicas_go want ok (c :: (rest ++ extra)) acc i = acc := by
        rw [create_replicas_go]
        simp [hfull]
      have hR : create_replicas_go want ok (c :: rest) acc i = acc := by
        rw [create_replicas_go]
        simp [hfull]
      rw [hL, hR]
    · by_cases hskip : acc.any (fun r => r.node = c.node) = true
      · have hL : create_replicas_go want ok (c :: (rest ++ extra)) acc i =
            create_replicas_go want ok (rest ++ extra) acc i := by
          rw [create_replicas_go]
          simp only [hfull, if_false, hskip, if_true]
        have hR : create_replicas_go want ok (c :: rest) acc i =
            create_replicas_go want ok rest acc i := by
          rw [create_replicas_go]
          simp only [hfull, if_false, hskip, if_true]
        rw [hR] at h
        rw [hL, hR]
        exact ih extra acc i h
      · by_cases hok : ok i = true
        · have hL : create_replicas_go want ok (c :: (rest ++ extra)) acc i =
              create_replicas_go want ok (rest ++ extra)
                (acc ++ [mkReplica (if acc.isEmpty then { c with share := Protocol.none }
                  else c)]) (i + 1) := by
            rw [create_replicas_go]
            simp only [hfull, if_false, hskip, Bool.false_eq_true, hok, if_true]
          have hR : create_replicas_go want ok (c :: rest) acc i =
              create_replicas_go want ok rest
                (acc ++ [mkReplica (if acc.isEmpty then { c with share := Protocol.none }
                  else c)]) (i + 1) := by
            rw [create_replicas_go]
            simp only [hfull, if_false, hskip, Bool.false_eq_true, hok, if_true]
          rw [hR] at h
          rw [hL, hR]
          exact ih extra _ (i + 1) h
        · have hL : create_replicas_go want ok (c :: (rest ++ extra)) acc i =
              create_replicas_go want ok (rest ++ extra) acc (i + 1) := by
            rw [create_replicas_go]
            simp only [hfull, if_false, hskip, Bool.false_eq_true, hok, if_false]
          have hR : create_replicas_go want ok (c :: rest) acc i =
              create_replicas_go want ok rest acc (i + 1) := by
            rw [create_replicas_go]
            simp only [hfull, if_false, hskip, Bool.false_eq_true, hok, if_false]
          rw [hR] at h
          rw [hL, hR]
          exact ih extra acc (i + 1) h

/-- C6: during volume create, replicas are created from the candidate
list one at a time, stopping as soon as the created count reaches the
requested replication factor (appending further candidates changes
nothing); a candidate whose node already hosts a created replica is
skipped, so the created nodes are pairwise distinct; the first
successfully created replica has share protocol `None`; and every later
successful replica is a candidate taken unchanged — keeping the
candidate's share protocol. -/
theorem C6_volume_create_replicas (want : Nat) (cands : List CreateReplica)
    (ok : Nat → Bool) :
    (volume_create_replicas want cands ok).length ≤ want ∧
    ((volume_create_replicas want cands ok).map Replica.node).Nodup ∧
    (∀ r, (volume_create_replicas want cands ok).head? = some r →
      r.share = Protocol.none) ∧
    (∀ r ∈ (volume_create_replicas want cands ok).drop 1,
      ∃ cand ∈ cands, r = mkReplica cand) ∧
    (∀ extra, (volume_create_replicas want cands ok).length = want →
      volume_create_replicas want (cands ++ extra) ok =
        volume_create_replicas want cands ok) :=
  ⟨create_replicas_go_length want ok cands [] 0 (by simp),
   create_replicas_go_nodup want ok cands [] 0 (by simp),
   create_replicas_go_head want ok cands 0,
   create_replicas_go_drop_one want ok cands 0,
   fun extra h => create_replicas_go_append want ok cands extra [] 0 h⟩

/-- C6 witness: three candidates on nodes 1, 1, 2 with factor 2 — the
duplicate node is skipped, the first created replica is demoted to
`None`, the second keeps its nvmf share. -/
theorem C6_witness :
    volume_create_replicas 2 [⟨10, 1, .nvmf⟩, ⟨11, 1, .nvmf⟩, ⟨12, 2, .nvmf⟩]
        (fun _ => true) = [⟨10, 1, .none⟩, ⟨12, 2, .nvmf⟩] ∧
    (volume_create_replicas 2 [⟨10, 1, .nvmf⟩, ⟨11, 1, .nvmf⟩, ⟨12, 2, .nvmf⟩]
        (fun _ => true)).length ≤ 2 ∧
    (∀ r, (volume_create_replicas 2 [⟨10, 1, .nvmf⟩, ⟨11, 1, .nvmf⟩, ⟨12, 2, .nvmf⟩]
        (fun _ => true)).head? = some r → r.share = Protocol.none) := by
  refine ⟨by decide, ?_, ?_⟩
  · exact (C6_volume_create_replicas 2 [⟨10, 1, .nvmf⟩, ⟨11, 1, .nvmf⟩, ⟨12, 2, .nvmf⟩]
      (fun _ => true)).1
  · exact (C6_volume_create_replicas 2 [⟨10, 1, .nvmf⟩, ⟨11, 1, .nvmf⟩, ⟨12, 2, .nvmf⟩]
      (fun _ => true)).2.2.1

/-! ## C7: volume create shortfall -/

/-- C7: when fewer replicas than the requested replication factor were
successfully created, every created replica is issued a destroy request
with disown-all, volume create completes with `ReplicaCreateNumber`
carrying the volume's uuid, and — via the `OnCreateFail::Delete` policy,
with the store delete succeeding — the volume spec is removed from the
persistent store and the registry. -/
theorem C7_short_create (want volUuid : Nat) (cands : List CreateReplica)
    (ok : Nat → Bool) (putOk2 : Bool) (c : Ctx)
    (hshort : (volume_create_replicas want cands ok).length < want) :
    volume_create want volUuid cands ok putOk2 true c =
      (⟨c.spec, false, none⟩,
       (volume_create_replicas want cands ok).map destroy_request_disown_all,
       .error (.ReplicaCreateNumber volUuid)) ∧
    (∀ d ∈ (volume_create_replicas want cands ok).map destroy_request_disown_all,
      d.disownAll = true) := by
  constructor
  · unfold volume_create volume_create_completion
    simp only [hshort, if_true]
    unfold complete_create handle_create_failed delete_spec delete_kv remove_spec
    simp
  · intro d hd
    obtain ⟨r, _, hr⟩ := List.mem_map.mp hd
    rw [← hr]
    rfl

/-- C7 witness: a single candidate for a factor-2 volume — the one
created replica is destroyed with disown-all, the create fails with
`ReplicaCreateNumber`, the spec is gone from store and registry. -/
theorem C7_witness :
    volume_create 2 77 [⟨10, 1, .nvmf⟩] (fun _ => true) true true
        ⟨⟨77, .Creating, some ⟨.Create 5, none⟩, [], 5, 0⟩, true,
          some ⟨77, .Creating, some ⟨.Create 5, none⟩, [], 5, 0⟩⟩ =
      (⟨⟨77, .Creating, some ⟨.Create 5, none⟩, [], 5, 0⟩, false, none⟩,
       [⟨10, 1, true⟩], .error (.ReplicaCreateNumber 77)) := by
  have h := (C7_short_create 2 77 [⟨10, 1, .nvmf⟩] (fun _ => true) true
    ⟨⟨77, .Creating, some ⟨.Create 5, none⟩, [], 5, 0⟩, true,
      some ⟨77, .Creating, some ⟨.Create 5, none⟩, [], 5, 0⟩⟩ (by decide)).1
  simpa using h

/-! ## C3: status-transition soundness — helper lemmas -/

theorem status_clear_op (s : Spec) : s.clear_op.status = s.status := rfl

theorem status_set_op_result (s : Spec) (b : Bool) :
    (s.set_op_result b).status = s.status := by
  unfold Spec.set_op_result
  cases hop : s.operation with
  | none => rfl
  | some o => rfl

theorem op_set_op_result (s : Spec) (b : Bool) {o : OperationState}
    (h : s.operation = some o) : (s.set_op_result b).operation = some ⟨o.op, some b⟩ := by
  unfold Spec.set_op_result
  rw [h]

theorem specInv_clear_op (s : Spec) : specInv s.clear_op = true := rfl

theorem specInv_set_op_result (s : Spec) (b : Bool) :
    specInv (s.set_op_result b) = specInv s := by
  cases hop : s.operation with
  | none => rw [set_op_result_of_none b hop]
  | some o =>
    have h2 : s.set_op_result b = { s with operation := some ⟨o.op, some b⟩ } := by
      unfold Spec.set_op_result
      rw [hop]
    rw [h2]
    unfold specInv
    rw [hop]
    cases o with
    | mk opk res => cases opk <;> rfl

theorem specInv_of_deleting {s : Spec} (h : s.status = .Deleting) : specInv s = true := by
  unfold specInv
  cases hop : s.operation with
  | none => rfl
  | some o =>
    cases o with
    | mk opk res => cases opk <;> simp [h]

theorem commit_op_of_none {s : Spec} (h : s.operation = none) : s.commit_op = s := by
  unfold Spec.commit_op
  rw [h]

theorem commit_op_create {s : Spec} {r : Nat} {res : Option Bool}
    (h : s.operation = some ⟨.Create r, res⟩) :
    s.commit_op = { s with status := .Created 0, params := r, operation := none } := by
  unfold Spec.commit_op
  rw [h]

theorem commit_op_destroy {s : Spec} {res : Option Bool}
    (h : s.operation = some ⟨.Destroy, res⟩) :
    s.commit_op = { s with status := .Deleted, operation := none } := by
  unfold Spec.commit_op
  rw [h]

theorem commit_op_update {s : Spec} {u : Nat} {res : Option Bool}
    (h : s.operation = some ⟨.Update u, res⟩) :
    s.commit_op = { s with uparams := u, operation := none } := by
  unfold Spec.commit_op
  rw [h]

theorem specInv_destroy_status {s : Spec} {res : Option Bool}
    (h : s.operation = some ⟨.Destroy, res⟩) (hinv : specInv s = true) :
    s.status = .Deleting := by
  unfold specInv at hinv
  rw [h] at hinv
  simpa using hinv

theorem specInv_create_status {s : Spec} {r : Nat} {res : Option Bool}
    (h : s.operation = some ⟨.Create r, res⟩) (hinv : specInv s = true) :
    s.status = .Creating ∨ s.status = .Deleting := by
  unfold specInv at hinv
  rw [h] at hinv
  simpa using hinv

theorem start_create_error_shape (p d : Bool) (request : Nat) (c : Ctx) (e : SvcError)
    (h : c.spec.start_create_inner request = .error e) :
    ∃ c1 e2, start_create p d request c = (c1, .error e2) ∧ c1.spec = c.spec := by
  unfold start_create
  rw [h]
  cases e <;> exact ⟨_, _, rfl, rfl⟩

theorem start_create_put_fail_shape (d : Bool) (request : Nat) (c : Ctx) (sp : Spec)
    (h : c.spec.start_create_inner request = .ok sp) :
    ∃ c1 e2, start_create false d request c = (c1, .error e2) ∧ c1.spec = sp.clear_op := by
  unfold start_create
  rw [h]
  unfold store_operation_log store_obj delete_spec delete_kv remove_spec
  cases d with
  | true => exact ⟨_, _, rfl, rfl⟩
  | false =>
    refine ⟨_, _, rfl, ?_⟩
    exact @set_op_result_of_none sp.clear_op false rfl

theorem start_create_ok_shape (d : Bool) (request : Nat) (c : Ctx) (sp : Spec)
    (h : c.spec.start_create_inner request = .ok sp) :
    start_create true d request c = ({ c with spec := sp, store := some sp }, .ok sp) := by
  unfold start_create
  rw [h]
  unfold store_operation_log store_obj
  simp

theorem start_destroy_busy_shape (p : Bool) (ds : List Nat) (c : Ctx) {o : OperationState}
    (h : c.spec.operation = some o) :
    start_destroy_by p ds c = (c, .error (.StoreDirty c.spec.uuid)) := by
  unfold start_destroy_by Spec.busy Spec.dirty Spec.has_pending_op
  rw [h]
  rfl

theorem start_destroy_deleted_shape (p : Bool) (ds : List Nat) (c : Ctx)
    (hop : c.spec.operation = none) (hst : c.spec.status = .Deleted) :
    start_destroy_by p ds c = (c, .ok ()) := by
  unfold start_destroy_by Spec.busy Spec.dirty Spec.has_pending_op
  rw [hop, hst]
  rfl

theorem start_destroy_inuse_shape (p : Bool) (ds : List Nat) (c : Ctx)
    (hop : c.spec.operation = none) (hst : c.spec.status.deleted = false)
    (hown : (c.spec.disown ds).owned = true) :
    start_destroy_by p ds c =
      ({ c with spec := c.spec.disown ds }, .error (.InUse c.spec.uuid)) := by
  unfold start_destroy_by Spec.busy Spec.dirty Spec.has_pending_op
  rw [hop]
  simp only [Option.isSome_none, Bool.false_eq_true, if_false, hst, hown]
  rfl

theorem start_destroy_go_shape (p : Bool) (ds : List Nat) (c : Ctx)
    (hop : c.spec.operation = none) (hst : c.spec.status.deleted = false)
    (hown : (c.spec.disown ds).owned = false) :
    start_destroy_by p ds c =
      (if p then
        (⟨⟨c.spec.uuid, .Deleting, some ⟨.Destroy, none⟩, [], c.spec.params, c.spec.uparams⟩,
           c.inRegistry,
           some ⟨c.spec.uuid, .Deleting, some ⟨.Destroy, none⟩, [], c.spec.params,
             c.spec.uparams⟩⟩, .ok ())
       else
        (⟨⟨c.spec.uuid, .Deleting, none, [], c.spec.params, c.spec.uparams⟩,
           c.inRegistry, c.store⟩, .error .Store)) := by
  unfold start_destroy_by Spec.busy Spec.dirty Spec.has_pending_op
  rw [hop]
  simp only [Option.isSome_none, Bool.false_eq_true, if_false, hst, hown]
  have hs2 : ((((c.spec.disown ds).set_status .Deleting)).disown_all).start_destroy_op =
      ⟨c.spec.uuid, .Deleting, some ⟨.Destroy, none⟩, [], c.spec.params, c.spec.uparams⟩ := by
    unfold Spec.disown Spec.set_status Spec.disown_all Spec.start_destroy_op Spec.start_op
    rfl
  cases p with
  | true =>
    simp only [if_true]
    unfold store_operation_log store_obj
    simp [hs2]
  | false =>
    simp only [Bool.false_eq_true, if_false]
    unfold store_operation_log store_obj
    simp [hs2, Spec.clear_op]

theorem start_update_inner_ok {s : Spec} {u : UpdateOp} {sp : Spec}
    (h : s.start_update_inner u = .ok sp) :
    sp = s.start_op (.Update u.op) ∧ s.operation = none := by
  unfold Spec.start_update_inner Spec.busy Spec.dirty Spec.has_pending_op at h
  cases hop : s.operation with
  | some o => rw [hop] at h; simp at h
  | none =>
    rw [hop] at h
    simp only [Option.isSome_none, Bool.false_eq_true, if_false] at h
    refine ⟨?_, rfl⟩
    cases hst : s.status <;> rw [hst] at h <;> simp only [] at h
    · split_ifs at h
      injection h with h1
      exact h1.symm
    · injection h with h1
      exact h1.symm
    · split_ifs at h
      injection h with h1
      exact h1.symm
    · split_ifs at h
      injection h with h1
      exact h1.symm

theorem start_update_error_shape (p : Bool) (u : UpdateOp) (c : Ctx) (e : SvcError)
    (h : c.spec.start_update_inner u = .error e) :
    start_update p u c = (c, .error e) := by
  unfold start_update
  rw [h]

theorem start_update_nolog_shape (p : Bool) (u : UpdateOp) (c : Ctx) (sp : Spec)
    (h : c.spec.start_update_inner u = .ok sp) (hlog : u.logOp = false) :
    start_update p u c = ({ c with spec := sp }, .ok sp) := by
  unfold start_update
  rw [h]
  simp [hlog]

theorem start_update_log_ok_shape (u : UpdateOp) (c : Ctx) (sp : Spec)
    (h : c.spec.start_update_inner u = .ok sp) (hlog : u.logOp = true) :
    start_update true u c = ({ c with spec := sp, store := some sp }, .ok sp) := by
  unfold start_update
  rw [h]
  simp only [hlog, if_true]
  unfold store_operation_log store_obj
  simp

theorem start_update_log_fail_shape (u : UpdateOp) (c : Ctx) (sp : Spec)
    (h : c.spec.start_update_inner u = .ok sp) (hlog : u.logOp = true) :
    start_update false u c = ({ c with spec := sp.clear_op }, .error .Store) := by
  unfold start_update
  rw [h]
  simp only [hlog, if_true]
  unfold store_operation_log store_obj
  simp

theorem complete_create_spec_cases (res : Except SvcError Unit) (p2 d : Bool)
    (f : OnCreateFail) (c : Ctx) :
    (complete_create res p2 d f c).1.spec = c.spec.commit_op ∨
    (complete_create res p2 d f c).1.spec = c.spec.set_op_result true ∨
    (complete_create res p2 d f c).1.spec = c.spec.clear_op ∨
    (complete_create res p2 d f c).1.spec = c.spec.set_op_result false ∨
    (complete_create res p2 d f c).1.spec = c.spec.fail_creating_to_deleting ∨
    (complete_create res p2 d f c).1.spec = c.spec := by
  unfold complete_create handle_create_failed delete_spec delete_kv remove_spec store_obj
    complete_op
  cases res <;> cases p2 <;> cases f <;> cases d <;> simp

theorem complete_destroy_spec_cases (res : Except SvcError Unit) (d p2 : Bool) (c : Ctx) :
    (complete_destroy res d p2 c).1.spec = c.spec.commit_op ∨
    (complete_destroy res d p2 c).1.spec = c.spec.set_op_result true ∨
    (complete_destroy res d p2 c).1.spec = c.spec.clear_op ∨
    (complete_destroy res d p2 c).1.spec = c.spec.set_op_result false := by
  unfold complete_destroy delete_kv remove_spec store_obj complete_op
  cases res <;> cases d <;> cases p2 <;> simp

theorem complete_update_spec_cases (res : Except SvcError Unit) (p2 so : Bool) (c : Ctx) :
    (complete_update res p2 so c).1.spec = c.spec.commit_op ∨
    (complete_update res p2 so c).1.spec = c.spec.set_op_result true ∨
    (complete_update res p2 so c).1.spec = c.spec.clear_op ∨
    (complete_update res p2 so c).1.spec = c.spec.set_op_result false := by
  unfold complete_update store_obj complete_op
  cases res <;> cases p2 <;> cases so <;> simp

theorem validate_update_step_spec_cases (res : Except SvcError Unit) (p : Bool) (c : Ctx) :
    (validate_update_step res p c).1.spec = c.spec ∨
    (validate_update_step res p c).1.spec = c.spec.clear_op ∨
    (validate_update_step res p c).1.spec = c.spec.set_op_result false := by
  unfold validate_update_step store_obj
  cases res <;> cases p <;> simp

theorem handle_incomplete_updates_spec_cases (p : Bool) (c : Ctx) :
    (handle_incomplete_updates p c).1.spec = c.spec.commit_op ∨
    (handle_incomplete_updates p c).1.spec = c.spec.clear_op ∨
    (handle_incomplete_updates p c).1.spec = c.spec := by
  unfold handle_incomplete_updates store_obj complete_op
  cases hres : c.spec.operation_result with
  | none => simp
  | some ob =>
    cases ob with
    | none => cases p <;> simp
    | some b => cases b <;> cases p <;> simp

theorem delete_spec_spec_cases (d : Bool) (c : Ctx) :
    (delete_spec d c).1.spec = c.spec ∨
    (delete_spec d c).1.spec = c.spec.set_op_result false := by
  unfold delete_spec delete_kv remove_spec
  cases d <;> simp

theorem phasedOk_one {before : SpecStatus} {c2 : Ctx} {l : List SpecStatus}
    (hl : l = [c2.spec.status]) (h1 : edgeOk before c2.spec.status) :
    phasedOk before (c2, l) := Or.inl ⟨hl, h1⟩

theorem phasedOk_two {before m : SpecStatus} {c2 : Ctx} {l : List SpecStatus}
    (hl : l = [m, c2.spec.status]) (h1 : edgeOk before m)
    (h2 : edgeOk m c2.spec.status) :
    phasedOk before (c2, l) := Or.inr ⟨m, hl, h1, h2⟩

theorem createOp_sound (request : Nat) (p p2 d : Bool) (res : Except SvcError Unit)
    (f : OnCreateFail) (c : Ctx) (hinv : specInv c.spec = true) :
    specInv (runStepTrace (.createOp request p res p2 d f) c).1.spec = true ∧
    phasedOk c.spec.status (runStepTrace (.createOp request p res p2 d f) c) := by
  cases hres : c.spec.start_create_inner request with
  | error e =>
    obtain ⟨c1, e2, heq, hspec⟩ := start_create_error_shape p d request c e hres
    simp only [runStepTrace]
    rw [heq]
    simp only []
    refine ⟨by rw [hspec]; exact hinv, ?_⟩
    exact phasedOk_one rfl (Or.inl (by rw [hspec]))
  | ok sp =>
    obtain ⟨hsp, hop, hst⟩ := start_create_inner_ok hres
    have hops : sp.operation = some ⟨.Create request, none⟩ := by rw [hsp]; rfl
    have hsts : sp.status = .Creating := by rw [hsp]; exact hst
    have hinvS : specInv sp = true := by
      unfold specInv
      rw [hops]
      simp [hsts]
    cases p with
    | false =>
      obtain ⟨c1, e2, heq, hspec⟩ := start_create_put_fail_shape d request c sp hres
      simp only [runStepTrace]
      rw [heq]
      simp only []
      refine ⟨by rw [hspec]; exact specInv_clear_op sp, ?_⟩
      refine phasedOk_one rfl (Or.inl ?_)
      rw [hspec, status_clear_op, hsts, hst]
    | true =>
      have heq := start_create_ok_shape d request c sp hres
      simp only [runStepTrace]
      rw [heq]
      simp only []
      have hd := complete_create_spec_cases res p2 d f ({ c with spec := sp, store := some sp })
      rcases hd with hX | hX | hX | hX | hX | hX
      · have hX1 : (complete_create res p2 d f
            { c with spec := sp, store := some sp }).1.spec = sp.commit_op := hX
        have hc := commit_op_create hops
        refine ⟨by rw [hX1, hc]; rfl, ?_⟩
        refine phasedOk_two rfl (Or.inl (hst.trans hsts.symm)) (Or.inr ?_)
        rw [hX1, hc, hsts]
        rfl
      · have hX1 : (complete_create res p2 d f
            { c with spec := sp, store := some sp }).1.spec = sp.set_op_result true := hX
        refine ⟨by rw [hX1, specInv_set_op_result]; exact hinvS, ?_⟩
        refine phasedOk_two rfl (Or.inl (hst.trans hsts.symm)) (Or.inl ?_)
        rw [hX1, status_set_op_result]
      · have hX1 : (complete_create res p2 d f
            { c with spec := sp, store := some sp }).1.spec = sp.clear_op := hX
        refine ⟨by rw [hX1]; exact specInv_clear_op sp, ?_⟩
        refine phasedOk_two rfl (Or.inl (hst.trans hsts.symm)) (Or.inl ?_)
        rw [hX1, status_clear_op]
      · have hX1 : (complete_create res p2 d f
            { c with spec := sp, store := some sp }).1.spec = sp.set_op_result false := hX
        refine ⟨by rw [hX1, specInv_set_op_result]; exact hinvS, ?_⟩
        refine phasedOk_two rfl (Or.inl (hst.trans hsts.symm)) (Or.inl ?_)
        rw [hX1, status_set_op_result]
      · have hX1 : (complete_create res p2 d f
            { c with spec := sp, store := some sp }).1.spec =
              sp.fail_creating_to_deleting := hX
        refine ⟨by rw [hX1]; exact specInv_clear_op (sp.set_status .Deleting), ?_⟩
        refine phasedOk_two rfl (Or.inl (hst.trans hsts.symm)) (Or.inr ?_)
        rw [hX1, hsts]
        rfl
      · have hX1 : (complete_create res p2 d f
            { c with spec := sp, store := some sp }).1.spec = sp := hX
        refine ⟨by rw [hX1]; exact hinvS, ?_⟩
        refine phasedOk_two rfl (Or.inl (hst.trans hsts.symm)) (Or.inl ?_)
        rw [hX1]

theorem edgeOk_to_deleting {st : SpecStatus} (h : st ≠ .Deleted) : edgeOk st .Deleting := by
  cases st with
  | Creating => exact Or.inr rfl
  | Created k => exact Or.inr rfl
  | Deleting => exact Or.inl rfl
  | Deleted => exact absurd rfl h

theorem destroyOp_sound (ds : List Nat) (p : Bool) (res : Except SvcError Unit)
    (d p2 : Bool) (c : Ctx) (hinv : specInv c.spec = true) :
    specInv (runStepTrace (.destroyOp ds p res d p2) c).1.spec = true ∧
    phasedOk c.spec.status (runStepTrace (.destroyOp ds p res d p2) c) := by
  cases hop : c.spec.operation with
  | some o =>
    have heq := start_destroy_busy_shape p ds c hop
    simp only [runStepTrace]
    rw [heq]
    simp only []
    exact ⟨hinv, phasedOk_one rfl (Or.inl rfl)⟩
  | none =>
    by_cases hdel : c.spec.status = .Deleted
    · have heq := start_destroy_deleted_shape p ds c hop hdel
      simp only [runStepTrace]
      rw [heq]
      simp only []
      have hX : (complete_destroy res d p2 c).1.spec = c.spec := by
        rcases complete_destroy_spec_cases res d p2 c with h | h | h | h
        · rw [h, commit_op_of_none hop]
        · rw [h, @set_op_result_of_none c.spec true hop]
        · rw [h, clear_op_of_none hop]
        · rw [h, @set_op_result_of_none c.spec false hop]
      refine ⟨by rw [hX]; exact hinv, ?_⟩
      exact phasedOk_two rfl (Or.inl rfl) (Or.inl (by rw [hX]))
    · have hdelb : c.spec.status.deleted = false := by
        cases hs : c.spec.status
        · rfl
        · rfl
        · rfl
        · exact absurd hs hdel
      by_cases hown : (c.spec.disown ds).owned = true
      · have heq := start_destroy_inuse_shape p ds c hop hdelb hown
        simp only [runStepTrace]
        rw [heq]
        simp only []
        exact ⟨hinv, phasedOk_one rfl (Or.inl rfl)⟩
      · have howneq : (c.spec.disown ds).owned = false := by
          cases h : (c.spec.disown ds).owned
          · rfl
          · exact absurd h hown
        have heq := start_destroy_go_shape p ds c hop hdelb howneq
        cases p with
        | false =>
          simp only [runStepTrace]
          rw [heq]
          simp only [Bool.false_eq_true, if_false]
          exact ⟨rfl, phasedOk_one rfl (edgeOk_to_deleting hdel)⟩
        | true =>
          simp only [runStepTrace]
          rw [heq]
          simp only [if_true]
          have hd := complete_destroy_spec_cases res d p2
            ⟨⟨c.spec.uuid, .Deleting, some ⟨.Destroy, none⟩, [], c.spec.params,
              c.spec.uparams⟩, c.inRegistry,
             some ⟨c.spec.uuid, .Deleting, some ⟨.Destroy, none⟩, [], c.spec.params,
              c.spec.uparams⟩⟩
          rcases hd with hX | hX | hX | hX
          · refine ⟨by rw [hX]; rfl, ?_⟩
            refine phasedOk_two rfl (edgeOk_to_deleting hdel) (Or.inr ?_)
            rw [hX]
            rfl
          · refine ⟨by rw [hX]; rfl, ?_⟩
            refine phasedOk_two rfl (edgeOk_to_deleting hdel) (Or.inl ?_)
            rw [hX]
            rfl
          · refine ⟨by rw [hX]; rfl, ?_⟩
            refine phasedOk_two rfl (edgeOk_to_deleting hdel) (Or.inl ?_)
            rw [hX]
            rfl
          · refine ⟨by rw [hX]; rfl, ?_⟩
            refine phasedOk_two rfl (edgeOk_to_deleting hdel) (Or.inl ?_)
            rw [hX]
            rfl

theorem updateOp_sound (u : UpdateOp) (p : Bool) (res : Except SvcError Unit)
    (p2 : Bool) (c : Ctx) (hinv : specInv c.spec = true) :
    specInv (runStepTrace (.updateOp u p res p2) c).1.spec = true ∧
    phasedOk c.spec.status (runStepTrace (.updateOp u p res p2) c) := by
  cases hres : c.spec.start_update_inner u with
  | error e =>
    have heq := start_update_error_shape p u c e hres
    simp only [runStepTrace]
    rw [heq]
    simp only []
    exact ⟨hinv, phasedOk_one rfl (Or.inl rfl)⟩
  | ok sp =>
    obtain ⟨hsp, hop⟩ := start_update_inner_ok hres
    have hops : sp.operation = some ⟨.Update u.op, none⟩ := by rw [hsp]; rfl
    have hsts : sp.status = c.spec.status := by rw [hsp]; rfl
    have hinvS : specInv sp = true := by
      unfold specInv
      rw [hops]
    have hcomplete : ∀ c1 : Ctx, c1.spec = sp →
        specInv (complete_update res p2 u.storeObj c1).1.spec = true ∧
        edgeOk sp.status (complete_update res p2 u.storeObj c1).1.spec.status := by
      intro c1 hc1
      rcases complete_update_spec_cases res p2 u.storeObj c1 with hX | hX | hX | hX
      · rw [hc1] at hX
        have hc := commit_op_update hops
        refine ⟨by rw [hX, hc]; rfl, Or.inl ?_⟩
        rw [hX, hc]
      · rw [hc1] at hX
        refine ⟨by rw [hX, specInv_set_op_result]; exact hinvS, Or.inl ?_⟩
        rw [hX, status_set_op_result]
      · rw [hc1] at hX
        refine ⟨by rw [hX]; exact specInv_clear_op sp, Or.inl ?_⟩
        rw [hX, status_clear_op]
      · rw [hc1] at hX
        refine ⟨by rw [hX, specInv_set_op_result]; exact hinvS, Or.inl ?_⟩
        rw [hX, status_set_op_result]
    cases hlog : u.logOp with
    | false =>
      have heq := start_update_nolog_shape p u c sp hres hlog
      simp only [runStepTrace]
      rw [heq]
      simp only []
      obtain ⟨h1, h2⟩ := hcomplete { c with spec := sp } rfl
      refine ⟨h1, phasedOk_two rfl (Or.inl hsts.symm) ?_⟩
      rcases h2 with h2 | h2
      · exact Or.inl h2
      · exact Or.inr h2
    | true =>
      cases p with
      | false =>
        have heq := start_update_log_fail_shape u c sp hres hlog
        simp only [runStepTrace]
        rw [heq]
        simp only []
        refine ⟨specInv_clear_op sp, phasedOk_one rfl (Or.inl ?_)⟩
        rw [status_clear_op, hsts]
      | true =>
        have heq := start_update_log_ok_shape u c sp hres hlog
        simp only [runStepTrace]
        rw [heq]
        simp only []
        obtain ⟨h1, h2⟩ := hcomplete { c with spec := sp, store := some sp } rfl
        refine ⟨h1, phasedOk_two rfl (Or.inl hsts.symm) ?_⟩
        rcases h2 with h2 | h2
        · exact Or.inl h2
        · exact Or.inr h2

theorem validateStep_sound (res : Except SvcError Unit) (p : Bool) (c : Ctx)
    (hinv : specInv c.spec = true) :
    specInv (runStepTrace (.validateStep res p) c).1.spec = true ∧
    phasedOk c.spec.status (runStepTrace (.validateStep res p) c) := by
  simp only [runStepTrace]
  rcases validate_update_step_spec_cases res p c with hX | hX | hX
  · exact ⟨by rw [hX]; exact hinv, phasedOk_one rfl (Or.inl (by rw [hX]))⟩
  · refine ⟨by rw [hX]; exact specInv_clear_op c.spec, phasedOk_one rfl (Or.inl ?_)⟩
    rw [hX, status_clear_op]
  · refine ⟨by rw [hX, specInv_set_op_result]; exact hinv, phasedOk_one rfl (Or.inl ?_)⟩
    rw [hX, status_set_op_result]

theorem hiu_sound (p : Bool) (c : Ctx) (hinv : specInv c.spec = true) :
    specInv (handle_incomplete_updates p c).1.spec = true ∧
    edgeOk c.spec.status (handle_incomplete_updates p c).1.spec.status := by
  rcases handle_incomplete_updates_spec_cases p c with hX | hX | hX
  · cases hop : c.spec.operation with
    | none =>
      rw [hX, commit_op_of_none hop]
      exact ⟨hinv, Or.inl rfl⟩
    | some o =>
      cases o with
      | mk opk r =>
        cases opk with
        | Create req =>
          have hc := commit_op_create hop
          refine ⟨by rw [hX, hc]; rfl, ?_⟩
          rcases specInv_create_status hop hinv with h | h
          · refine Or.inr ?_
            rw [hX, hc, h]
            rfl
          · refine Or.inr ?_
            rw [hX, hc, h]
            rfl
        | Destroy =>
          have hc := commit_op_destroy hop
          refine ⟨by rw [hX, hc]; rfl, ?_⟩
          refine Or.inr ?_
          rw [hX, hc, specInv_destroy_status hop hinv]
          rfl
        | Update uo =>
          have hc := commit_op_update hop
          refine ⟨by rw [hX, hc]; rfl, Or.inl ?_⟩
          rw [hX, hc]
  · refine ⟨by rw [hX]; exact specInv_clear_op c.spec, Or.inl ?_⟩
    rw [hX, status_clear_op]
  · exact ⟨by rw [hX]; exact hinv, Or.inl (by rw [hX])⟩

theorem recoveryOp_sound (f : OnCreateFail) (p d : Bool) (c : Ctx)
    (hinv : specInv c.spec = true) :
    specInv (runStepTrace (.recoveryOp f p d) c).1.spec = true ∧
    phasedOk c.spec.status (runStepTrace (.recoveryOp f p d) c) := by
  simp only [runStepTrace]
  cases hst : c.spec.status with
  | Creating =>
    cases f with
    | SetDeleting =>
      have heq : handle_incomplete_ops_ext .SetDeleting p d c =
          ({ c with spec := c.spec.set_status .Deleting }, true) := by
        unfold handle_incomplete_ops_ext
        rw [hst]
      rw [heq]
      simp only []
      refine ⟨specInv_of_deleting rfl, ?_⟩
      exact phasedOk_one rfl (Or.inr rfl)
    | LeaveAsIs =>
      have heq : handle_incomplete_ops_ext .LeaveAsIs p d c =
          handle_incomplete_updates p c := by
        unfold handle_incomplete_ops_ext
        rw [hst]
      rw [heq]
      obtain ⟨h1, h2⟩ := hiu_sound p c hinv
      exact ⟨h1, phasedOk_one rfl (hst ▸ h2)⟩
    | Delete =>
      have heq : handle_incomplete_ops_ext .Delete p d c =
          handle_incomplete_updates p c := by
        unfold handle_incomplete_ops_ext
        rw [hst]
      rw [heq]
      obtain ⟨h1, h2⟩ := hiu_sound p c hinv
      exact ⟨h1, phasedOk_one rfl (hst ▸ h2)⟩
  | Created k =>
    have heq : handle_incomplete_ops_ext f p d c = handle_incomplete_updates p c := by
      unfold handle_incomplete_ops_ext
      rw [hst]
    rw [heq]
    obtain ⟨h1, h2⟩ := hiu_sound p c hinv
    exact ⟨h1, phasedOk_one rfl (hst ▸ h2)⟩
  | Deleting =>
    have heq : handle_incomplete_ops_ext f p d c = handle_incomplete_updates p c := by
      unfold handle_incomplete_ops_ext
      rw [hst]
    rw [heq]
    obtain ⟨h1, h2⟩ := hiu_sound p c hinv
    exact ⟨h1, phasedOk_one rfl (hst ▸ h2)⟩
  | Deleted =>
    have heq : handle_incomplete_ops_ext f p d c = ((delete_spec d c).1, true) := by
      unfold handle_incomplete_ops_ext
      rw [hst]
    rw [heq]
    simp only []
    rcases delete_spec_spec_cases d c with hX | hX
    · exact ⟨by rw [hX]; exact hinv, phasedOk_one rfl (Or.inl (by rw [hX, hst]))⟩
    · refine ⟨by rw [hX, specInv_set_op_result]; exact hinv, phasedOk_one rfl (Or.inl ?_)⟩
      rw [hX, status_set_op_result, hst]

theorem step_sound (s : TOEStep) (c : Ctx) (hinv : specInv c.spec = true) :
    specInv (runStepTrace s c).1.spec = true ∧
    phasedOk c.spec.status (runStepTrace s c) := by
  cases s with
  | createOp request p res p2 d f => exact createOp_sound request p p2 d res f c hinv
  | destroyOp ds p res d p2 => exact destroyOp_sound ds p res d p2 c hinv
  | updateOp u p res p2 => exact updateOp_sound u p res p2 c hinv
  | validateStep res p => exact validateStep_sound res p c hinv
  | recoveryOp f p d => exact recoveryOp_sound f p d c hinv

theorem edgeOk_bool {a b : SpecStatus} (h : edgeOk a b) :
    (decide (a = b) || toeEdge a b) = true := by
  rcases h with h | h
  · simp [h]
  · simp [h]

/-- C3 counterexample: a create whose commit put fails leaves a pending
create with `op_result = Some(true)`; recovery under `SetDeleting` moves
the spec to `Deleting` without clearing that operation; a second recovery
pass then re-commits the stale create, transitioning Deleting → Created —
a transition outside the claimed DAG. -/
theorem C3_counterexample :
    statusTrace ⟨⟨1, .Creating, none, [], 7, 0⟩, true, none⟩
        [.createOp 7 true (.ok ()) false true .Delete,
         .recoveryOp .SetDeleting true true,
         .recoveryOp .SetDeleting true true] =
      [.Creating, .Creating, .Creating, .Deleting, .Created 0] ∧
    chainOk dagEdge (statusTrace ⟨⟨1, .Creating, none, [], 7, 0⟩, true, none⟩
        [.createOp 7 true (.ok ()) false true .Delete,
         .recoveryOp .SetDeleting true true,
         .recoveryOp .SetDeleting true true]) = false := by
  constructor
  · decide
  · decide

/-- C3 (amended): starting from a spec satisfying the pending-op/status
invariant (in particular any fresh spec), under every sequence of TOE
operations the observed status chain only moves along the DAG
Creating → Created → Deleting → Deleted with rollback edge
Creating → Deleting, extended by the single extra edge
Deleting → Created that incomplete-op recovery takes when it re-commits a
stale create operation of a spec already moved to `Deleting`. -/
theorem C3_status_dag (c : Ctx) (steps : List TOEStep)
    (hinv : specInv c.spec = true) :
    chainOk toeEdge (statusTrace c steps) = true := by
  induction steps generalizing c with
  | nil => rfl
  | cons s rest ih =>
    obtain ⟨hinv2, hph⟩ := step_sound s c hinv
    have htail := ih (runStepTrace s c).1 hinv2
    show chainOk toeEdge (c.spec.status :: statusTraceAux c (s :: rest)) = true
    have haux : statusTraceAux c (s :: rest) =
        (runStepTrace s c).2 ++ statusTraceAux (runStepTrace s c).1 rest := rfl
    rw [haux]
    rcases hph with ⟨hl, he⟩ | ⟨m, hl, he1, he2⟩
    · rw [hl]
      simp only [List.singleton_append, chainOk, Bool.and_eq_true]
      exact ⟨edgeOk_bool he, htail⟩
    · rw [hl]
      simp only [List.cons_append, List.nil_append, chainOk, Bool.and_eq_true]
      exact ⟨edgeOk_bool he1, edgeOk_bool he2, htail⟩

/-- C3 witness: the amended theorem on the very trace of the
counterexample — it satisfies the extended edge set. -/
theorem C3_witness :
    chainOk toeEdge (statusTrace ⟨⟨1, .Creating, none, [], 7, 0⟩, true, none⟩
        [.createOp 7 true (.ok ()) false true .Delete,
         .recoveryOp .SetDeleting true true,
         .recoveryOp .SetDeleting true true]) = true :=
  C3_status_dag ⟨⟨1, .Creating, none, [], 7, 0⟩, true, none⟩
    [.createOp 7 true (.ok ()) false true .Delete,
     .recoveryOp .SetDeleting true true,
     .recoveryOp .SetDeleting true true] (by decide)

end Ctrl
